import Mathlib

/-!
# GeoIP processor (`plugins/processors/geoip/geoip.go`)

A shallow embedding of `GeoIP.Apply` and the properties of it that the
specification states.

* The metric point, whose fields `Apply` reads with `GetField` and mutates in
  place with `AddField`, is an ordered list of named values.
* `net.ParseIP` and the package-level `reader` (`reader.Lookup`) are external
  collaborators: they are parameters, bundled in `Env`.
* `g.Log.Errorf` is modelled by the list of entries emitted, in order.
* A failed single-value type assertion `x.(string)` panics; a panic is the
  result `none`.
-/

namespace geoip

/-- A Go `float64`, carried by its IEEE-754 bit pattern. `Apply` only moves such
values from the database record to the point, it never computes with them. -/
structure Float64 where
  bits : Nat
deriving DecidableEq, Repr

/-- The value of a field of a metric point (`interface{}` in the source): the
tagged union of the types a field can hold. -/
inductive Value where
  | str (s : String)
  | int (i : Int)
  | float (f : Float64)
  | bool (b : Bool)
deriving DecidableEq, Repr

/-- The ordered field list of a metric point. -/
abbrev Fields := List (String × Value)

/-- Modelled from the spec: `telegraf.Metric`, the metric point owned by the host
pipeline, is not part of this repository. Only its fields matter to `Apply`; the
name, tags and timestamp are carried along. -/
structure Metric where
  name : String
  tags : List (String × String)
  fields : Fields
  time : Int
deriving DecidableEq, Repr

/-- Modelled from the spec: the lookup behind `GetField`, not part of this
repository. The value of the first field named `key`, if any. -/
def getField : Fields → String → Option Value
  | [], _ => none
  | (k, v) :: rest, key => if k = key then some v else getField rest key

/-- Modelled from the spec: the update behind `AddField` ("adds or overwrites a
field"), not part of this repository. The first field named `key` gets the new
value; when there is none, a new field is appended. -/
def addField : Fields → String → Value → Fields
  | [], key, value => [(key, value)]
  | (k, v) :: rest, key, value =>
    if k = key then (k, value) :: rest else (k, v) :: addField rest key value

/-- Modelled from the spec: `GetField(name) → (value, found)` of the MetricPoint
collaborator contract. -/
def Metric.GetField (m : Metric) (key : String) : Option Value :=
  getField m.fields key

/-- Modelled from the spec: `AddField(name, value)` of the MetricPoint
collaborator contract, which adds or overwrites a field. -/
def Metric.AddField (m : Metric) (key : String) (value : Value) : Metric :=
  { m with fields := addField m.fields key value }

/-- A parsed address (`net.IP`, a byte slice). -/
abbrev IP := List Nat

/-- The part `record.Country` of a lookup result that `Apply` reads. -/
structure Country where
  ISOCode : String
deriving DecidableEq, Repr

/-- The part `record.City` of a lookup result that `Apply` reads; `Names` is the
Go map from locale to display name. -/
structure City where
  Names : List (String × String)
deriving DecidableEq, Repr

/-- The part `record.Location` of a lookup result that `Apply` reads. -/
structure Location where
  Latitude : Float64
  Longitude : Float64
deriving DecidableEq, Repr

/-- The record returned by a successful `reader.Lookup`. -/
structure CityResult where
  Country : Country
  City : City
  Location : Location
deriving DecidableEq, Repr

/-- The external collaborators of `Apply`: the address parser `net.ParseIP`
(`none` is Go's `nil` result) and the database `reader.Lookup`. -/
structure Env where
  ParseIP : String → Option IP
  Lookup : IP → Except String CityResult

/-- One `[[processors.geoip.lookup]]` rule. -/
structure lookupEntry where
  Field : String
  DestCountry : String
  DestCity : String
  DestLat : String
  DestLon : String
deriving DecidableEq, Repr

/-- The processor's configuration. The logger `Log` of the source is modelled by
the entries that `Apply` returns. -/
structure GeoIP where
  DBPath : String
  Lookups : List lookupEntry
deriving DecidableEq, Repr

/-- An entry written with `g.Log.Errorf`: the formatted message. -/
structure LogEntry where
  error : String
deriving DecidableEq, Repr

/-- The entry of `g.Log.Errorf("Invalid IP address: %v", value)` for the string
`value`. -/
def invalidIP (value : String) : LogEntry :=
  ⟨"Invalid IP address: " ++ value⟩

/-- Lines 88-105: the writes of a rule once its lookup has succeeded. -/
def writeDest (lookup : lookupEntry) (record : CityResult) (point : Metric) : Metric :=
  let point :=
    if lookup.DestCountry ≠ "" then
      point.AddField lookup.DestCountry (.str record.Country.ISOCode)
    else point
  let point :=
    if lookup.DestCity ≠ "" then
      match record.City.Names.lookup "en" with
      | some cityName => point.AddField lookup.DestCity (.str cityName)
      | none => point
    else point
  let point :=
    if lookup.DestLat ≠ "" then
      point.AddField lookup.DestLat (.float record.Location.Latitude)
    else point
  if lookup.DestLon ≠ "" then
    point.AddField lookup.DestLon (.float record.Location.Longitude)
  else point

/-- Lines 67-105: the body of the loop over the rules, for one rule. It takes
and returns the point and the log; `none` is the panic of `value.(string)`. -/
def applyLookup (env : Env) (lookup : lookupEntry) (point : Metric)
    (log : List LogEntry) : Option (Metric × List LogEntry) :=
  if lookup.Field = "" then some (point, log)
  else
    match point.GetField lookup.Field with
    | none => some (point, log)
    | some (.str value) =>
      match env.ParseIP value with
      | none => some (point, log ++ [invalidIP value])
      | some ipAddress =>
        match env.Lookup ipAddress with
        | .error _ => some (point, log)
        | .ok record => some (writeDest lookup record point, log)
    | some _ => none

/-- Lines 66-106: the loop over `g.Lookups` for one point. -/
def applyLookups (env : Env) : List lookupEntry → Metric → List LogEntry →
    Option (Metric × List LogEntry)
  | [], point, log => some (point, log)
  | lookup :: rest, point, log =>
    match applyLookup env lookup point log with
    | none => none
    | some (point, log) => applyLookups env rest point log

/-- Lines 55-106: the body of the loop over the points, for one point. The first
rule's field is read and parsed before the rules are run. -/
def applyPoint (env : Env) (first : lookupEntry) (lookups : List lookupEntry)
    (point : Metric) (log : List LogEntry) : Option (Metric × List LogEntry) :=
  match point.GetField first.Field with
  | none => some (point, log)
  | some (.str ipValue) =>
    match env.ParseIP ipValue with
    | none => some (point, log ++ [invalidIP ipValue])
    | some _ => applyLookups env lookups point log
  | some _ => none

/-- Lines 54-107: the loop over the points of the batch. -/
def applyPoints (env : Env) (first : lookupEntry) (lookups : List lookupEntry) :
    List Metric → List LogEntry → Option (List Metric × List LogEntry)
  | [], log => some ([], log)
  | point :: rest, log =>
    match applyPoint env first lookups point log with
    | none => none
    | some (point, log) =>
      match applyPoints env first lookups rest log with
      | none => none
      | some (rest, log) => some (point :: rest, log)

/-- `GeoIP.Apply`: the batch after the in-place updates together with the log
entries emitted, or `none` when a type assertion panics. -/
def Apply (env : Env) (g : GeoIP) (metrics : List Metric) :
    Option (List Metric × List LogEntry) :=
  match g.Lookups with
  | [] => some (metrics, [])
  | first :: _ => applyPoints env first g.Lookups metrics []

/-! ### A small concrete environment -/

/-- A parser that knows two addresses. -/
def demoParseIP (s : String) : Option IP :=
  if s = "8.8.8.8" then some [8, 8, 8, 8]
  else if s = "1.2.3.4" then some [1, 2, 3, 4]
  else if s = "10.0.0.1" then some [10, 0, 0, 1]
  else none

/-- The record of `8.8.8.8` in the demonstration database. -/
def recUS : CityResult :=
  ⟨⟨"US"⟩, ⟨[("de", "Bergblick"), ("en", "Mountain View")]⟩, ⟨⟨37⟩, ⟨122⟩⟩⟩

/-- The record of `1.2.3.4` in the demonstration database; it has no English
city name. -/
def recAU : CityResult :=
  ⟨⟨"AU"⟩, ⟨[]⟩, ⟨⟨33⟩, ⟨151⟩⟩⟩

/-- A database with two addresses; `10.0.0.1` is not in it. -/
def demoLookup (ip : IP) : Except String CityResult :=
  if ip = [8, 8, 8, 8] then .ok recUS
  else if ip = [1, 2, 3, 4] then .ok recAU
  else .error "not found"

/-- The demonstration environment. -/
def demoEnv : Env := ⟨demoParseIP, demoLookup⟩

/-- A point with the given fields. -/
def mkPoint (fields : Fields) : Metric := ⟨"net", [], fields, 0⟩

/-- The rule of the end-to-end example of the specification. -/
def specRule : lookupEntry := ⟨"source_ip", "source_country", "source_city", "", ""⟩

/-- The input point of the end-to-end example of the specification. -/
def specPoint : Metric := mkPoint [("source_ip", .str "8.8.8.8")]

/-- A rule with only a country destination. -/
def countryRule (field dest : String) : lookupEntry := ⟨field, dest, "", "", ""⟩

/-! ### Auxiliary definitions used to state and prove the properties -/

/-- The destination names of a rule that `Apply` can write: the non-empty ones. -/
def dests (l : lookupEntry) : List String :=
  [l.DestCountry, l.DestCity, l.DestLat, l.DestLon].filter (fun k => k ≠ "")

/-- The writes of `writeDest` as a list, in program order. -/
def writes (lookup : lookupEntry) (record : CityResult) : List (String × Value) :=
  (if lookup.DestCountry ≠ "" then
    [(lookup.DestCountry, Value.str record.Country.ISOCode)] else []) ++
  (if lookup.DestCity ≠ "" then
    (match record.City.Names.lookup "en" with
     | some cityName => [(lookup.DestCity, Value.str cityName)]
     | none => []) else []) ++
  (if lookup.DestLat ≠ "" then
    [(lookup.DestLat, Value.float record.Location.Latitude)] else []) ++
  (if lookup.DestLon ≠ "" then
    [(lookup.DestLon, Value.float record.Location.Longitude)] else [])

/-- Perform a list of writes on a field list, first to last. -/
def applyWrites : List (String × Value) → Fields → Fields
  | [], fs => fs
  | w :: ws, fs => applyWrites ws (addField fs w.1 w.2)

/-- Perform a list of writes on a point. -/
def Metric.writeAll (p : Metric) (ws : List (String × Value)) : Metric :=
  { p with fields := applyWrites ws p.fields }

/-- What one rule does to a point, as data: the writes it performs and the log
entries it emits, or `none` when its type assertion panics. It depends on the
point only through the value of the rule's source field. -/
def ruleWrites (env : Env) (l : lookupEntry) (p : Metric) :
    Option (List (String × Value) × List LogEntry) :=
  if l.Field = "" then some ([], [])
  else
    match p.GetField l.Field with
    | none => some ([], [])
    | some (.str value) =>
      match env.ParseIP value with
      | none => some ([], [invalidIP value])
      | some ipAddress =>
        match env.Lookup ipAddress with
        | .error _ => some ([], [])
        | .ok record => some (writes l record, [])
    | some _ => none

/-- What a list of rules does when every rule reads its source field from the
same point `p`: all writes, then all log entries, in rule order. -/
def planWrites (env : Env) : List lookupEntry → Metric →
    Option (List (String × Value) × List LogEntry)
  | [], _ => some ([], [])
  | l :: rest, p =>
    match ruleWrites env l p, planWrites env rest p with
    | some (w, e), some (w2, e2) => some (w ++ w2, e ++ e2)
    | _, _ => none

/-- What the body of the loop over the points does to `p`, as data, when every
rule reads its source field from `p`. -/
def pointPlan (env : Env) (first : lookupEntry) (lookups : List lookupEntry) (p : Metric) :
    Option (List (String × Value) × List LogEntry) :=
  match p.GetField first.Field with
  | none => some ([], [])
  | some (.str ipValue) =>
    match env.ParseIP ipValue with
    | none => some ([], [invalidIP ipValue])
    | some _ => planWrites env lookups p
  | some _ => none

/-- A rule with the source field of `l` and no destination. -/
def quiet (l : lookupEntry) : lookupEntry := ⟨l.Field, "", "", "", ""⟩

end geoip

/-! ## Theorems -/

namespace geoip

/-! ### Fields: reading and writing -/

theorem getField_addField (fs : Fields) (key key2 : String) (v : Value) :
    getField (addField fs key v) key2 = if key = key2 then some v else getField fs key2 := by
  induction fs with
  | nil =>
    by_cases h : key = key2 <;> simp [addField, getField, h]
  | cons a rest ih =>
    obtain ⟨k, x⟩ := a
    simp only [addField, getField]
    split_ifs <;> simp_all [getField]

theorem getField_addField_ne (fs : Fields) (key key2 : String) (v : Value) (h : key ≠ key2) :
    getField (addField fs key v) key2 = getField fs key2 := by
  rw [getField_addField, if_neg h]

theorem getField_addField_self (fs : Fields) (key : String) (v : Value) :
    getField (addField fs key v) key = some v := by
  rw [getField_addField, if_pos rfl]

theorem getField_addField_isSome (fs : Fields) (key key2 : String) (v : Value)
    (h : (getField fs key2).isSome) : (getField (addField fs key v) key2).isSome := by
  rw [getField_addField]
  split <;> simp [h]

theorem getField_applyWrites (ws : List (String × Value)) (fs : Fields) (key : String)
    (h : key ∉ ws.map Prod.fst) : getField (applyWrites ws fs) key = getField fs key := by
  induction ws generalizing fs with
  | nil => rfl
  | cons w ws ih =>
    simp only [List.map_cons, List.mem_cons, not_or] at h
    rw [applyWrites, ih _ h.2, getField_addField_ne _ _ _ _ (Ne.symm h.1)]

theorem getField_applyWrites_isSome (ws : List (String × Value)) (fs : Fields) (key : String)
    (h : (getField fs key).isSome) : (getField (applyWrites ws fs) key).isSome := by
  induction ws generalizing fs with
  | nil => exact h
  | cons w ws ih =>
    rw [applyWrites]
    exact ih _ (getField_addField_isSome _ _ _ _ h)

theorem applyWrites_append (ws ws2 : List (String × Value)) (fs : Fields) :
    applyWrites (ws ++ ws2) fs = applyWrites ws2 (applyWrites ws fs) := by
  induction ws generalizing fs with
  | nil => rfl
  | cons w ws ih => simp [applyWrites, ih]

theorem getField_applyWrites_opt (c : Prop) [Decidable c] (ws : List (String × Value))
    (key : String) (v : Value) (fs : Fields) (k : String) :
    getField (applyWrites (ws ++ (if c then [(key, v)] else [])) fs) k
      = if c ∧ k = key then some v else getField (applyWrites ws fs) k := by
  by_cases h : c
  · by_cases hk : k = key
    · simp [h, hk, applyWrites_append, applyWrites, getField_addField]
    · simp [h, hk, applyWrites_append, applyWrites, getField_addField, Ne.symm hk]
  · simp [h]

theorem writes_keys (l : lookupEntry) (r : CityResult) (k : String)
    (h : k ∈ (writes l r).map Prod.fst) : k ∈ dests l := by
  unfold writes at h
  unfold dests
  simp only [List.map_append, List.mem_append, List.mem_filter, List.mem_cons] at h ⊢
  rcases h with ((h | h) | h) | h
  · split_ifs at h with h1 <;> simp_all
  · split_ifs at h with h1
    · split at h <;> simp_all
    · simp at h
  · split_ifs at h with h1 <;> simp_all
  · split_ifs at h with h1 <;> simp_all

theorem writeDest_eq (l : lookupEntry) (r : CityResult) (p : Metric) :
    writeDest l r p = p.writeAll (writes l r) := by
  unfold writeDest writes Metric.writeAll Metric.AddField
  by_cases h1 : l.DestCountry = "" <;> by_cases h2 : l.DestCity = "" <;>
    by_cases h3 : l.DestLat = "" <;> by_cases h4 : l.DestLon = "" <;>
    cases h5 : r.City.Names.lookup "en" <;>
    simp [h1, h2, h3, h4, h5, applyWrites]

/-! ### One rule, and the loop over the rules -/

theorem writeAll_nil (p : Metric) : p.writeAll [] = p := rfl

theorem writeAll_append (p : Metric) (ws ws2 : List (String × Value)) :
    p.writeAll (ws ++ ws2) = (p.writeAll ws).writeAll ws2 := by
  simp [Metric.writeAll, applyWrites_append]

theorem ruleWrites_keys (env : Env) (l : lookupEntry) (p : Metric)
    (ws : List (String × Value)) (e : List LogEntry) (h : ruleWrites env l p = some (ws, e))
    (k : String) (hk : k ∈ ws.map Prod.fst) : k ∈ dests l := by
  unfold ruleWrites at h
  split_ifs at h with h0
  · simp only [Option.some.injEq, Prod.mk.injEq] at h
    rw [← h.1] at hk
    simp at hk
  · split at h
    · simp only [Option.some.injEq, Prod.mk.injEq] at h
      rw [← h.1] at hk
      simp at hk
    · split at h
      · simp only [Option.some.injEq, Prod.mk.injEq] at h
        rw [← h.1] at hk
        simp at hk
      · split at h
        · simp only [Option.some.injEq, Prod.mk.injEq] at h
          rw [← h.1] at hk
          simp at hk
        · simp only [Option.some.injEq, Prod.mk.injEq] at h
          rw [← h.1] at hk
          exact writes_keys _ _ _ hk
    · simp at h

theorem applyLookup_eq (env : Env) (l : lookupEntry) (p : Metric) (log : List LogEntry) :
    applyLookup env l p log =
      (ruleWrites env l p).map (fun r => (p.writeAll r.1, log ++ r.2)) := by
  unfold applyLookup ruleWrites
  split_ifs with h0
  · simp [writeAll_nil]
  · cases hg : p.GetField l.Field with
    | none => simp [writeAll_nil]
    | some v =>
      cases v with
      | str value =>
        simp only
        cases hp : env.ParseIP value with
        | none => simp [writeAll_nil]
        | some ip =>
          simp only
          cases hl : env.Lookup ip with
          | error _ => simp [writeAll_nil]
          | ok record => simp [writeDest_eq]
      | int i => simp
      | float f => simp
      | bool b => simp

/-- The value a rule reads decides what it does. -/
theorem ruleWrites_congr (env : Env) (l : lookupEntry) (p q : Metric)
    (h : q.GetField l.Field = p.GetField l.Field) : ruleWrites env l q = ruleWrites env l p := by
  unfold ruleWrites
  rw [h]

theorem GetField_writeAll (p : Metric) (ws : List (String × Value)) (key : String)
    (h : key ∉ ws.map Prod.fst) : (p.writeAll ws).GetField key = p.GetField key :=
  getField_applyWrites ws p.fields key h

theorem GetField_writeAll_isSome (p : Metric) (ws : List (String × Value)) (key : String)
    (h : (p.GetField key).isSome) : ((p.writeAll ws).GetField key).isSome :=
  getField_applyWrites_isSome ws p.fields key h

/-- The loop over the rules performs a list of writes whose keys are destination
names of the rules, and appends to the log. -/
theorem applyLookups_shape (env : Env) (ls : List lookupEntry) (p p2 : Metric)
    (log log2 : List LogEntry) (h : applyLookups env ls p log = some (p2, log2)) :
    ∃ ws e, p2 = p.writeAll ws ∧ log2 = log ++ e ∧
      ∀ k ∈ ws.map Prod.fst, ∃ l ∈ ls, k ∈ dests l := by
  induction ls generalizing p log with
  | nil =>
    simp only [applyLookups, Option.some.injEq, Prod.mk.injEq] at h
    exact ⟨[], [], by simp [writeAll_nil, h.1], by simp [h.2], by simp⟩
  | cons l rest ih =>
    rw [applyLookups, applyLookup_eq] at h
    cases hr : ruleWrites env l p with
    | none => simp [hr] at h
    | some r =>
      obtain ⟨w, e⟩ := r
      simp only [hr, Option.map_some'] at h
      obtain ⟨ws, e2, h1, h2, h3⟩ := ih _ _ h
      refine ⟨w ++ ws, e ++ e2, ?_, ?_, ?_⟩
      · rw [h1, writeAll_append]
      · rw [h2, List.append_assoc]
      · intro k hk
        simp only [List.map_append, List.mem_append] at hk
        rcases hk with hk | hk
        · exact ⟨l, by simp, ruleWrites_keys env l p w e hr k hk⟩
        · obtain ⟨l2, hl2, hk2⟩ := h3 k hk
          exact ⟨l2, by simp [hl2], hk2⟩

/-- The log is only appended to: the loop over the rules started with the log
`log` does what it does started with the empty log. -/
theorem applyLookups_log (env : Env) (ls : List lookupEntry) (p : Metric)
    (log : List LogEntry) :
    applyLookups env ls p log =
      (applyLookups env ls p []).map (fun r => (r.1, log ++ r.2)) := by
  induction ls generalizing p log with
  | nil => simp [applyLookups]
  | cons l rest ih =>
    rw [applyLookups, applyLookups, applyLookup_eq, applyLookup_eq]
    cases hr : ruleWrites env l p with
    | none => simp
    | some r =>
      obtain ⟨w, e⟩ := r
      simp only [Option.map_some', List.nil_append]
      rw [ih _ (log ++ e), ih _ e]
      cases applyLookups env rest (p.writeAll w) [] with
      | none => simp
      | some r2 => simp [List.append_assoc]

theorem applyLookups_append (env : Env) (ls ls2 : List lookupEntry) (p : Metric)
    (log : List LogEntry) :
    applyLookups env (ls ++ ls2) p log =
      (applyLookups env ls p log).bind (fun r => applyLookups env ls2 r.1 r.2) := by
  induction ls generalizing p log with
  | nil => simp [applyLookups]
  | cons l rest ih =>
    simp only [List.cons_append, applyLookups]
    cases applyLookup env l p log with
    | none => simp
    | some r => simp [ih]

/-! ### One point, and the loop over the points -/

theorem applyPoint_shape (env : Env) (first : lookupEntry) (ls : List lookupEntry)
    (p p2 : Metric) (log log2 : List LogEntry)
    (h : applyPoint env first ls p log = some (p2, log2)) :
    ∃ ws e, p2 = p.writeAll ws ∧ log2 = log ++ e ∧
      ∀ k ∈ ws.map Prod.fst, ∃ l ∈ ls, k ∈ dests l := by
  unfold applyPoint at h
  split at h
  · simp only [Option.some.injEq, Prod.mk.injEq] at h
    exact ⟨[], [], by simp [writeAll_nil, h.1], by simp [h.2], by simp⟩
  · split at h
    · simp only [Option.some.injEq, Prod.mk.injEq] at h
      exact ⟨[], _, by simp [writeAll_nil, h.1], h.2.symm, by simp⟩
    · exact applyLookups_shape env ls p p2 log log2 h
  · simp at h

theorem applyPoint_log (env : Env) (first : lookupEntry) (ls : List lookupEntry)
    (p : Metric) (log : List LogEntry) :
    applyPoint env first ls p log =
      (applyPoint env first ls p []).map (fun r => (r.1, log ++ r.2)) := by
  unfold applyPoint
  split
  · simp
  · split
    · simp
    · exact applyLookups_log env ls p log
  · simp

theorem applyPoints_log (env : Env) (first : lookupEntry) (ls : List lookupEntry)
    (ms : List Metric) (log : List LogEntry) :
    applyPoints env first ls ms log =
      (applyPoints env first ls ms []).map (fun r => (r.1, log ++ r.2)) := by
  induction ms generalizing log with
  | nil => simp [applyPoints]
  | cons p rest ih =>
    rw [applyPoints, applyPoints, applyPoint_log env first ls p log]
    cases applyPoint env first ls p [] with
    | none => simp
    | some r =>
      obtain ⟨p2, e⟩ := r
      simp only [Option.map_some']
      rw [ih (log ++ e), ih e]
      cases applyPoints env first ls rest [] with
      | none => simp
      | some r2 => simp [List.append_assoc]

theorem applyPoints_cons (env : Env) (first : lookupEntry) (ls : List lookupEntry)
    (p : Metric) (ms : List Metric) :
    applyPoints env first ls (p :: ms) [] =
      (applyPoint env first ls p []).bind (fun r =>
        (applyPoints env first ls ms []).map (fun r2 => (r.1 :: r2.1, r.2 ++ r2.2))) := by
  rw [applyPoints]
  cases applyPoint env first ls p [] with
  | none => simp
  | some r =>
    obtain ⟨p2, e⟩ := r
    simp only [Option.some_bind]
    rw [applyPoints_log env first ls ms e]
    cases applyPoints env first ls ms [] with
    | none => simp
    | some r2 => simp

theorem applyPoints_append (env : Env) (first : lookupEntry) (ls : List lookupEntry)
    (ms ms2 : List Metric) :
    applyPoints env first ls (ms ++ ms2) [] =
      (applyPoints env first ls ms []).bind (fun r =>
        (applyPoints env first ls ms2 []).map (fun r2 => (r.1 ++ r2.1, r.2 ++ r2.2))) := by
  induction ms with
  | nil =>
    simp only [List.nil_append, applyPoints, Option.some_bind]
    cases applyPoints env first ls ms2 [] with
    | none => simp
    | some r2 => simp
  | cons p rest ih =>
    rw [List.cons_append, applyPoints_cons, applyPoints_cons, ih]
    cases applyPoint env first ls p [] with
    | none => simp
    | some r =>
      cases applyPoints env first ls rest [] with
      | none => simp
      | some r1 =>
        cases applyPoints env first ls ms2 [] with
        | none => simp
        | some r2 => simp [List.append_assoc]

/-- Every point of the result is the point of the batch at the same position
after a list of writes to destination names of the rules. -/
theorem applyPoints_shape (env : Env) (first : lookupEntry) (ls : List lookupEntry)
    (ms ms2 : List Metric) (log log2 : List LogEntry)
    (h : applyPoints env first ls ms log = some (ms2, log2)) :
    List.Forall₂ (fun p p2 => ∃ ws, p2 = p.writeAll ws ∧
      ∀ k ∈ ws.map Prod.fst, ∃ l ∈ ls, k ∈ dests l) ms ms2 := by
  induction ms generalizing ms2 log with
  | nil =>
    simp only [applyPoints, Option.some.injEq, Prod.mk.injEq] at h
    rw [← h.1]
    exact List.Forall₂.nil
  | cons p rest ih =>
    rw [applyPoints] at h
    cases hp : applyPoint env first ls p log with
    | none => simp [hp] at h
    | some r =>
      obtain ⟨p2, e⟩ := r
      simp only [hp] at h
      cases hr : applyPoints env first ls rest e with
      | none => simp [hr] at h
      | some r2 =>
        obtain ⟨rest2, e2⟩ := r2
        simp only [hr, Option.some.injEq, Prod.mk.injEq] at h
        rw [← h.1]
        obtain ⟨ws, _, h1, _, h3⟩ := applyPoint_shape env first ls p p2 log e hp
        exact List.Forall₂.cons ⟨ws, h1, h3⟩ (ih _ _ (h.2 ▸ hr))

/-! ### The batch -/

theorem Apply_nil_lookups (env : Env) (g : GeoIP) (ms : List Metric) (h : g.Lookups = []) :
    Apply env g ms = some (ms, []) := by
  simp [Apply, h]

theorem Apply_cons_lookups (env : Env) (g : GeoIP) (first : lookupEntry)
    (rest : List lookupEntry) (ms : List Metric) (h : g.Lookups = first :: rest) :
    Apply env g ms = applyPoints env first (first :: rest) ms [] := by
  simp [Apply, h]

theorem Apply_append (env : Env) (g : GeoIP) (ms ms2 : List Metric) :
    Apply env g (ms ++ ms2) =
      (Apply env g ms).bind (fun r =>
        (Apply env g ms2).map (fun r2 => (r.1 ++ r2.1, r.2 ++ r2.2))) := by
  cases hg : g.Lookups with
  | nil => simp [Apply_nil_lookups env g _ hg]
  | cons first rest =>
    simp only [Apply_cons_lookups env g first rest _ hg]
    exact applyPoints_append env first _ ms ms2

theorem Apply_single (env : Env) (g : GeoIP) (first : lookupEntry)
    (rest : List lookupEntry) (p : Metric) (h : g.Lookups = first :: rest) :
    Apply env g [p] =
      (applyPoint env first (first :: rest) p []).map (fun r => ([r.1], r.2)) := by
  rw [Apply_cons_lookups env g first rest _ h, applyPoints_cons]
  cases applyPoint env first (first :: rest) p [] with
  | none => simp
  | some r => simp [applyPoints]

/-! ### Helper lemmas for the claims -/

theorem applyPoints_absent (env : Env) (first : lookupEntry) (ls : List lookupEntry)
    (ms : List Metric) (log : List LogEntry)
    (h : ∀ p ∈ ms, p.GetField first.Field = none) :
    applyPoints env first ls ms log = some (ms, log) := by
  induction ms with
  | nil => rfl
  | cons p rest ih =>
    have hp : applyPoint env first ls p log = some (p, log) := by
      simp [applyPoint, h p (by simp)]
    simp [applyPoints, hp, ih (fun q hq => h q (by simp [hq]))]

theorem Apply_cons_some (env : Env) (g : GeoIP) (first : lookupEntry)
    (rest : List lookupEntry) (p p2 : Metric) (e : List LogEntry)
    (pre post pre2 post2 : List Metric) (log1 log2 : List LogEntry)
    (hg : g.Lookups = first :: rest)
    (hp : applyPoint env first (first :: rest) p [] = some (p2, e))
    (hpre : Apply env g pre = some (pre2, log1))
    (hpost : Apply env g post = some (post2, log2)) :
    Apply env g (pre ++ p :: post) = some (pre2 ++ p2 :: post2, log1 ++ (e ++ log2)) := by
  have h1 : Apply env g [p] = some ([p2], e) := by
    rw [Apply_single env g first rest p hg, hp]; rfl
  have h2 : Apply env g (p :: post) = some (p2 :: post2, e ++ log2) := by
    have := Apply_append env g [p] post
    simpa [h1, hpost] using this
  rw [Apply_append, hpre, h2]
  rfl

theorem applyLookups_filter (env : Env) (ls : List lookupEntry) (p : Metric)
    (log : List LogEntry) :
    applyLookups env (ls.filter (fun l => l.Field ≠ "")) p log = applyLookups env ls p log := by
  induction ls generalizing p log with
  | nil => rfl
  | cons l rest ih =>
    by_cases h : l.Field = ""
    · rw [List.filter_cons_of_neg (by simp [h])]
      simp only [applyLookups, applyLookup, h, if_true]
      exact ih _ _
    · rw [List.filter_cons_of_pos (by simp [h])]
      simp only [applyLookups]
      cases applyLookup env l p log with
      | none => rfl
      | some r => exact ih _ _

theorem applyPoints_congr (env : Env) (first first2 : lookupEntry) (ls ls2 : List lookupEntry)
    (ms : List Metric) (log : List LogEntry) (hf : first2.Field = first.Field)
    (h : ∀ p ∈ ms, ∀ lg, applyLookups env ls p lg = applyLookups env ls2 p lg) :
    applyPoints env first ls ms log = applyPoints env first2 ls2 ms log := by
  induction ms generalizing log with
  | nil => rfl
  | cons p rest ih =>
    have hp : applyPoint env first ls p log = applyPoint env first2 ls2 p log := by
      unfold applyPoint
      rw [hf]
      split
      · rfl
      · split
        · rfl
        · exact h p (by simp) log
      · rfl
    rw [applyPoints, applyPoints, hp]
    cases applyPoint env first2 ls2 p log with
    | none => rfl
    | some r => simp only; rw [ih _ (fun q hq => h q (by simp [hq]))]

theorem applyPoints_id (env : Env) (first : lookupEntry) (ls : List lookupEntry)
    (ms : List Metric) (log : List LogEntry)
    (h : ∀ p ∈ ms, ∀ lg, applyPoint env first ls p lg = some (p, lg)) :
    applyPoints env first ls ms log = some (ms, log) := by
  induction ms with
  | nil => rfl
  | cons p rest ih =>
    simp [applyPoints, h p (by simp) log, ih (fun q hq => h q (by simp [hq]))]

/-- After the rules `pre` have run, a field that none of them has as a destination
holds what it held. -/
theorem applyLookups_GetField (env : Env) (pre : List lookupEntry) (p q : Metric)
    (log log2 : List LogEntry) (key : String)
    (h : applyLookups env pre p log = some (q, log2))
    (hk : ∀ l ∈ pre, key ∉ dests l) : q.GetField key = p.GetField key := by
  obtain ⟨ws, _, rfl, _, hws⟩ := applyLookups_shape env pre p q log log2 h
  apply GetField_writeAll
  intro hmem
  obtain ⟨l, hl, hkl⟩ := hws key hmem
  exact hk l hl hkl

/-- Replacing a rule that is not preceded by a rule writing its source field by a
rule that acts alike on every point with the same source value changes nothing. -/
theorem applyLookups_replace (env : Env) (pre post : List lookupEntry) (l l2 : lookupEntry)
    (p : Metric) (log : List LogEntry)
    (hpre : ∀ x ∈ pre, l.Field ∉ dests x)
    (hl : ∀ q lg, q.GetField l.Field = p.GetField l.Field →
      applyLookup env l q lg = applyLookup env l2 q lg) :
    applyLookups env (pre ++ l :: post) p log = applyLookups env (pre ++ l2 :: post) p log := by
  rw [applyLookups_append, applyLookups_append]
  cases h : applyLookups env pre p log with
  | none => rfl
  | some r =>
    obtain ⟨q, lg⟩ := r
    simp only [Option.some_bind, applyLookups]
    rw [hl q lg (applyLookups_GetField env pre p q log lg l.Field h hpre)]

theorem applyLookup_lookup_error (env : Env) (l : lookupEntry) (p : Metric)
    (log : List LogEntry) (s : String) (ip : IP) (err : String)
    (hsrc : p.GetField l.Field = some (.str s)) (hparse : env.ParseIP s = some ip)
    (hfail : env.Lookup ip = .error err) : applyLookup env l p log = some (p, log) := by
  unfold applyLookup
  split_ifs
  · rfl
  · simp [hsrc, hparse, hfail]

/-- A rule whose source field is absent, or holds text that does not parse,
leaves the point as it is. -/
theorem applyLookup_skip (env : Env) (l : lookupEntry) (p : Metric) (log : List LogEntry)
    (h : p.GetField l.Field = none ∨
      ∃ s, p.GetField l.Field = some (.str s) ∧ env.ParseIP s = none) :
    ∃ e, applyLookup env l p log = some (p, log ++ e) := by
  unfold applyLookup
  split_ifs
  · exact ⟨[], by simp⟩
  · rcases h with h | ⟨s, h, hs⟩
    · exact ⟨[], by simp [h]⟩
    · exact ⟨[invalidIP s], by simp [h, hs]⟩

/-- The points that the loop over the rules yields do not depend on the log it is
started with. -/
theorem applyLookups_fst (env : Env) (ls : List lookupEntry) (p : Metric)
    (log log2 : List LogEntry) :
    (applyLookups env ls p log).map Prod.fst = (applyLookups env ls p log2).map Prod.fst := by
  rw [applyLookups_log env ls p log, applyLookups_log env ls p log2]
  cases applyLookups env ls p [] <;> simp

/-- Removing a skipped rule that is not preceded by a rule writing its source
field does not change the point that the loop over the rules yields. -/
theorem applyLookups_remove (env : Env) (pre post : List lookupEntry) (bad : lookupEntry)
    (p : Metric) (log log2 : List LogEntry)
    (hpre : ∀ x ∈ pre, bad.Field ∉ dests x)
    (hbad : p.GetField bad.Field = none ∨
      ∃ s, p.GetField bad.Field = some (.str s) ∧ env.ParseIP s = none) :
    (applyLookups env (pre ++ bad :: post) p log).map Prod.fst
      = (applyLookups env (pre ++ post) p log2).map Prod.fst := by
  rw [applyLookups_fst env (pre ++ post) p log2 log, applyLookups_append, applyLookups_append]
  cases h : applyLookups env pre p log with
  | none => rfl
  | some r =>
    obtain ⟨q, lg⟩ := r
    have hq : q.GetField bad.Field = p.GetField bad.Field :=
      applyLookups_GetField env pre p q log lg bad.Field h hpre
    obtain ⟨e, he⟩ := applyLookup_skip env bad q lg (by rw [hq]; exact hbad)
    simp only [Option.some_bind, applyLookups, he]
    exact applyLookups_fst env post q _ _

theorem applyPoints_fst_congr (env : Env) (first : lookupEntry) (ls ls2 : List lookupEntry)
    (ms : List Metric) (log log2 : List LogEntry)
    (h : ∀ p ∈ ms, ∀ lg lg2, (applyLookups env ls p lg).map Prod.fst
      = (applyLookups env ls2 p lg2).map Prod.fst) :
    (applyPoints env first ls ms log).map Prod.fst
      = (applyPoints env first ls2 ms log2).map Prod.fst := by
  induction ms generalizing log log2 with
  | nil => rfl
  | cons p rest ih =>
    have hp : (applyPoint env first ls p log).map Prod.fst
        = (applyPoint env first ls2 p log2).map Prod.fst := by
      unfold applyPoint
      split
      · rfl
      · split
        · rfl
        · exact h p (by simp) log log2
      · rfl
    have ih2 := fun lg lg2 => ih lg lg2 (fun q hq => h q (by simp [hq]))
    rw [applyPoints, applyPoints]
    cases h1 : applyPoint env first ls p log with
    | none =>
      cases h2 : applyPoint env first ls2 p log2 with
      | none => rfl
      | some r2 => simp [h1, h2] at hp
    | some r1 =>
      cases h2 : applyPoint env first ls2 p log2 with
      | none => simp [h1, h2] at hp
      | some r2 =>
        obtain ⟨p1, e1⟩ := r1
        obtain ⟨p2, e2⟩ := r2
        simp only [h1, h2, Option.map_some', Option.some.injEq] at hp
        subst hp
        simp only
        have := ih2 e1 e2
        cases h3 : applyPoints env first ls rest e1 with
        | none =>
          cases h4 : applyPoints env first ls2 rest e2 with
          | none => rfl
          | some r4 => simp [h3, h4] at this
        | some r3 =>
          cases h4 : applyPoints env first ls2 rest e2 with
          | none => simp [h3, h4] at this
          | some r4 =>
            simp only [h3, h4, Option.map_some', Option.some.injEq] at this
            simp [this]

/-! ### Writing the same list of writes twice -/

theorem addField_addField_same (fs : Fields) (key : String) (v v2 : Value) :
    addField (addField fs key v) key v2 = addField fs key v2 := by
  induction fs with
  | nil => simp [addField]
  | cons a rest ih =>
    obtain ⟨k, x⟩ := a
    by_cases hk : k = key
    · simp [addField, hk]
    · simp [addField, hk, ih]

theorem addField_comm (fs : Fields) (key key2 : String) (v v2 : Value) (hne : key ≠ key2)
    (h : (getField fs key2).isSome) :
    addField (addField fs key v) key2 v2 = addField (addField fs key2 v2) key v := by
  induction fs with
  | nil => simp [getField] at h
  | cons a rest ih =>
    obtain ⟨k, x⟩ := a
    by_cases hk : k = key
    · subst hk
      have hk2 : ¬ k = key2 := hne
      simp [addField, hk2]
    · by_cases hk2 : k = key2
      · subst hk2
        simp [addField, hk]
      · simp only [getField, hk2, if_false] at h
        simp [addField, hk, hk2, ih h]

theorem applyWrites_present (ws : List (String × Value)) (fs : Fields) :
    ∀ w ∈ ws, (getField (applyWrites ws fs) w.1).isSome := by
  induction ws generalizing fs with
  | nil => simp
  | cons a rest ih =>
    intro w hw
    rw [applyWrites]
    rcases List.mem_cons.mp hw with rfl | hw
    · apply getField_applyWrites_isSome
      simp [getField_addField_self]
    · exact ih _ w hw

theorem addField_applyWrites_addField (ws : List (String × Value)) (fs : Fields)
    (key : String) (v : Value) (h : ∀ w ∈ ws, (getField fs w.1).isSome) :
    addField (applyWrites ws (addField fs key v)) key v
      = addField (applyWrites ws fs) key v := by
  induction ws generalizing fs with
  | nil => simp [applyWrites, addField_addField_same]
  | cons a rest ih =>
    obtain ⟨k1, v1⟩ := a
    simp only [applyWrites]
    by_cases hk : key = k1
    · subst hk
      rw [addField_addField_same]
    · rw [addField_comm fs key k1 v v1 hk (h (k1, v1) (by simp))]
      apply ih
      intro w hw
      exact getField_addField_isSome _ _ _ _ (h w (by simp [hw]))

/-- A list of writes performed a second time changes nothing. -/
theorem applyWrites_idem (ws : List (String × Value)) (fs : Fields) :
    applyWrites ws (applyWrites ws fs) = applyWrites ws fs := by
  induction ws using List.reverseRecOn generalizing fs with
  | nil => rfl
  | append_singleton T a ih =>
    obtain ⟨key, v⟩ := a
    simp only [applyWrites_append, applyWrites]
    rw [addField_applyWrites_addField T _ key v (applyWrites_present T fs), ih]

theorem writeAll_idem (p : Metric) (ws : List (String × Value)) :
    (p.writeAll ws).writeAll ws = p.writeAll ws := by
  simp [Metric.writeAll, applyWrites_idem]

/-! ### Rules that read what no rule writes -/

theorem planWrites_keys (env : Env) (ls : List lookupEntry) (p : Metric)
    (ws : List (String × Value)) (e : List LogEntry) (h : planWrites env ls p = some (ws, e)) :
    ∀ k ∈ ws.map Prod.fst, ∃ l ∈ ls, k ∈ dests l := by
  induction ls generalizing ws e with
  | nil =>
    simp only [planWrites, Option.some.injEq, Prod.mk.injEq] at h
    simp [← h.1]
  | cons l rest ih =>
    rw [planWrites] at h
    cases h1 : ruleWrites env l p with
    | none => simp [h1] at h
    | some r1 =>
      cases h2 : planWrites env rest p with
      | none => simp [h1, h2] at h
      | some r2 =>
        obtain ⟨w1, e1⟩ := r1
        obtain ⟨w2, e2⟩ := r2
        simp only [h1, h2, Option.some.injEq, Prod.mk.injEq] at h
        intro k hk
        rw [← h.1, List.map_append, List.mem_append] at hk
        rcases hk with hk | hk
        · exact ⟨l, by simp, ruleWrites_keys env l p w1 e1 h1 k hk⟩
        · obtain ⟨l2, hl2, hk2⟩ := ih w2 e2 h2 k hk
          exact ⟨l2, by simp [hl2], hk2⟩

/-- When no rule writes a field of `srcs` and every rule reads one, the loop over
the rules run on a point `q` that agrees with `p` on `srcs` performs the writes,
and emits the entries, planned from `p`. -/
theorem applyLookups_plan (env : Env) (srcs : List String) (ls : List lookupEntry)
    (p q : Metric) (log : List LogEntry)
    (hs : ∀ l ∈ ls, l.Field ∈ srcs) (hd : ∀ l ∈ ls, ∀ k ∈ dests l, k ∉ srcs)
    (hq : ∀ k ∈ srcs, q.GetField k = p.GetField k) :
    applyLookups env ls q log
      = (planWrites env ls p).map (fun r => (q.writeAll r.1, log ++ r.2)) := by
  induction ls generalizing q log with
  | nil => simp [applyLookups, planWrites, writeAll_nil]
  | cons l rest ih =>
    rw [applyLookups, applyLookup_eq, planWrites,
      ruleWrites_congr env l p q (hq l.Field (hs l (by simp)))]
    cases h1 : ruleWrites env l p with
    | none => simp
    | some r1 =>
      obtain ⟨w1, e1⟩ := r1
      have hq2 : ∀ k ∈ srcs, (q.writeAll w1).GetField k = p.GetField k := by
        intro k hk
        rw [GetField_writeAll q w1 k, hq k hk]
        intro hmem
        exact hd l (by simp) k (ruleWrites_keys env l p w1 e1 h1 k hmem) hk
      simp only [Option.map_some']
      rw [ih (q.writeAll w1) (log ++ e1) (fun x hx => hs x (by simp [hx]))
        (fun x hx => hd x (by simp [hx])) hq2]
      cases h2 : planWrites env rest p with
      | none => simp
      | some r2 => simp [writeAll_append, List.append_assoc]

theorem applyPoint_plan (env : Env) (srcs : List String) (first : lookupEntry)
    (ls : List lookupEntry) (p q : Metric) (log : List LogEntry)
    (hf : first.Field ∈ srcs)
    (hs : ∀ l ∈ ls, l.Field ∈ srcs) (hd : ∀ l ∈ ls, ∀ k ∈ dests l, k ∉ srcs)
    (hq : ∀ k ∈ srcs, q.GetField k = p.GetField k) :
    applyPoint env first ls q log
      = (pointPlan env first ls p).map (fun r => (q.writeAll r.1, log ++ r.2)) := by
  unfold applyPoint pointPlan
  rw [hq first.Field hf]
  split
  · simp [writeAll_nil]
  · split
    · simp [writeAll_nil]
    · exact applyLookups_plan env srcs ls p q log hs hd hq
  · simp

theorem pointPlan_keys (env : Env) (first : lookupEntry) (ls : List lookupEntry) (p : Metric)
    (ws : List (String × Value)) (e : List LogEntry)
    (h : pointPlan env first ls p = some (ws, e)) :
    ∀ k ∈ ws.map Prod.fst, ∃ l ∈ ls, k ∈ dests l := by
  unfold pointPlan at h
  split at h
  · simp only [Option.some.injEq, Prod.mk.injEq] at h
    simp [← h.1]
  · split at h
    · simp only [Option.some.injEq, Prod.mk.injEq] at h
      simp [← h.1]
    · exact planWrites_keys env ls p ws e h
  · simp at h

/-- When no rule writes the source field of a rule, the body of the loop over the
points run on its own result yields that result again. -/
theorem applyPoint_idem (env : Env) (first : lookupEntry) (ls : List lookupEntry)
    (p p2 : Metric) (e : List LogEntry) (hf : first ∈ ls)
    (hD : ∀ l ∈ ls, ∀ k ∈ dests l, ∀ l2 ∈ ls, l2.Field ≠ k)
    (h : applyPoint env first ls p [] = some (p2, e)) :
    applyPoint env first ls p2 [] = some (p2, e) := by
  have hs : ∀ l ∈ ls, l.Field ∈ ls.map (fun x => x.Field) :=
    fun l hl => List.mem_map.mpr ⟨l, hl, rfl⟩
  have hd : ∀ l ∈ ls, ∀ k ∈ dests l, k ∉ ls.map (fun x => x.Field) := by
    intro l hl k hk hmem
    obtain ⟨l2, hl2, hk2⟩ := List.mem_map.mp hmem
    exact hD l hl k hk l2 hl2 hk2
  rw [applyPoint_plan env _ first ls p p [] (hs first hf) hs hd (fun _ _ => rfl)] at h
  cases hp : pointPlan env first ls p with
  | none => simp [hp] at h
  | some r =>
    obtain ⟨ws, e2⟩ := r
    simp only [hp, Option.map_some', List.nil_append, Option.some.injEq, Prod.mk.injEq] at h
    obtain ⟨h1, h2⟩ := h
    subst h1 h2
    have hq : ∀ k ∈ ls.map (fun x => x.Field), (p.writeAll ws).GetField k = p.GetField k := by
      intro k hk
      apply GetField_writeAll
      intro hmem
      obtain ⟨l, hl, hkl⟩ := pointPlan_keys env first ls p ws e2 hp k hmem
      exact hd l hl k hkl hk
    rw [applyPoint_plan env _ first ls p (p.writeAll ws) [] (hs first hf) hs hd hq, hp]
    simp [writeAll_idem]

theorem applyPoints_idem (env : Env) (first : lookupEntry) (ls : List lookupEntry)
    (ms ms2 : List Metric) (log : List LogEntry) (hf : first ∈ ls)
    (hD : ∀ l ∈ ls, ∀ k ∈ dests l, ∀ l2 ∈ ls, l2.Field ≠ k)
    (h : applyPoints env first ls ms [] = some (ms2, log)) :
    applyPoints env first ls ms2 [] = some (ms2, log) := by
  induction ms generalizing ms2 log with
  | nil =>
    simp only [applyPoints, Option.some.injEq, Prod.mk.injEq] at h
    rw [← h.1, ← h.2]
    rfl
  | cons p rest ih =>
    rw [applyPoints_cons] at h
    cases h1 : applyPoint env first ls p [] with
    | none => simp [h1] at h
    | some r1 =>
      cases h2 : applyPoints env first ls rest [] with
      | none => simp [h1, h2] at h
      | some r2 =>
        obtain ⟨p2, e⟩ := r1
        obtain ⟨rest2, e2⟩ := r2
        simp only [h1, h2, Option.some_bind, Option.map_some', Option.some.injEq,
          Prod.mk.injEq] at h
        rw [← h.1, ← h.2, applyPoints_cons, applyPoint_idem env first ls p p2 e hf hD h1,
          ih rest2 e2 h2]
        rfl

theorem planWrites_append (env : Env) (ls ls2 : List lookupEntry) (p : Metric)
    (w1 w2 : List (String × Value)) (e1 e2 : List LogEntry)
    (h1 : planWrites env ls p = some (w1, e1)) (h2 : planWrites env ls2 p = some (w2, e2)) :
    planWrites env (ls ++ ls2) p = some (w1 ++ w2, e1 ++ e2) := by
  induction ls generalizing w1 e1 with
  | nil =>
    simp only [planWrites, Option.some.injEq, Prod.mk.injEq] at h1
    simp [← h1.1, ← h1.2, h2]
  | cons l rest ih =>
    rw [planWrites] at h1
    cases hr : ruleWrites env l p with
    | none => simp [hr] at h1
    | some r =>
      cases hp : planWrites env rest p with
      | none => simp [hr, hp] at h1
      | some r2 =>
        obtain ⟨w, e⟩ := r
        obtain ⟨w3, e3⟩ := r2
        simp only [hr, hp, Option.some.injEq, Prod.mk.injEq] at h1
        rw [List.cons_append, planWrites, hr, ih w3 e3 hp]
        simp [← h1.1, ← h1.2, List.append_assoc]

/-- Rules whose source field is absent or holds a string that parses neither
panic nor log. -/
theorem planWrites_silent (env : Env) (ls : List lookupEntry) (p : Metric)
    (h : ∀ l ∈ ls, p.GetField l.Field = none ∨
      ∃ s ip, p.GetField l.Field = some (.str s) ∧ env.ParseIP s = some ip) :
    ∃ ws, planWrites env ls p = some (ws, []) := by
  induction ls with
  | nil => exact ⟨[], rfl⟩
  | cons l rest ih =>
    obtain ⟨ws, hws⟩ := ih (fun x hx => h x (by simp [hx]))
    have hl : ∃ w, ruleWrites env l p = some (w, []) := by
      unfold ruleWrites
      split_ifs
      · exact ⟨[], rfl⟩
      · rcases h l (by simp) with h0 | ⟨s, ip, h1, h2⟩
        · exact ⟨[], by simp [h0]⟩
        · cases h3 : env.Lookup ip with
          | error err => exact ⟨[], by simp [h1, h2, h3]⟩
          | ok r => exact ⟨writes l r, by simp [h1, h2, h3]⟩
    obtain ⟨w, hw⟩ := hl
    exact ⟨w ++ ws, by simp [planWrites, hw, hws]⟩

theorem ruleWrites_invalid (env : Env) (l : lookupEntry) (p : Metric) (s : String)
    (hne : l.Field ≠ "") (hsrc : p.GetField l.Field = some (.str s))
    (hparse : env.ParseIP s = none) : ruleWrites env l p = some ([], [invalidIP s]) := by
  simp [ruleWrites, hne, hsrc, hparse]

/-! ### The claims -/

/-- C2. When no point of the batch has a field named by the source field name of
any rule, `Apply` returns the batch itself, every point unchanged, and emits no
log entry; and with an empty rule list `Apply` returns every batch unchanged. -/
theorem Apply_no_source_field (env : Env) (g : GeoIP) (ms : List Metric) :
    ((∀ p ∈ ms, ∀ l ∈ g.Lookups, p.GetField l.Field = none) →
        Apply env g ms = some (ms, [])) ∧
    (g.Lookups = [] → Apply env g ms = some (ms, [])) := by
  refine ⟨fun h => ?_, fun h => Apply_nil_lookups env g ms h⟩
  cases hg : g.Lookups with
  | nil => exact Apply_nil_lookups env g ms hg
  | cons first rest =>
    rw [Apply_cons_lookups env g first rest ms hg]
    exact applyPoints_absent env first _ ms [] (fun p hp => h p hp first (by simp [hg]))

theorem Apply_no_source_field_witness :
    ((∀ p ∈ [mkPoint [("bytes", .int 7)], mkPoint []],
        ∀ l ∈ (GeoIP.mk "db" [countryRule "ip" "c", countryRule "" "d"]).Lookups,
          p.GetField l.Field = none) ∧
      Apply demoEnv ⟨"db", [countryRule "ip" "c", countryRule "" "d"]⟩
          [mkPoint [("bytes", .int 7)], mkPoint []]
        = some ([mkPoint [("bytes", .int 7)], mkPoint []], [])) ∧
    ((GeoIP.mk "db" []).Lookups = [] ∧
      Apply demoEnv ⟨"db", []⟩ [mkPoint [("ip", .int 7)]]
        = some ([mkPoint [("ip", .int 7)]], [])) :=
  ⟨⟨by decide, (Apply_no_source_field demoEnv _ _).1 (by decide)⟩,
   ⟨rfl, (Apply_no_source_field demoEnv _ _).2 rfl⟩⟩

/-- C3 (the code departs from it). A batch whose second point holds an integer
in the source field of the rule: the type assertion `ipValue.(string)` panics and
`Apply` returns nothing, although the first point alone is enriched and the rule
could have been skipped for the second. -/
theorem Apply_panics_on_non_string :
    Apply demoEnv ⟨"db", [countryRule "ip" "country"]⟩
        [mkPoint [("ip", .str "8.8.8.8")], mkPoint [("ip", .int 134744072)]] = none ∧
    Apply demoEnv ⟨"db", [countryRule "ip" "country"]⟩ [mkPoint [("ip", .str "8.8.8.8")]]
      = some ([mkPoint [("ip", .str "8.8.8.8"), ("country", .str "US")]], []) := by
  decide

/-- C5. With a non-empty rule list, a point on which the source field of the
first rule is absent, or holds text that does not parse as an IP address, comes
out of `Apply` unchanged, whatever the later rules are; the points before and
after it in the batch are processed as they are without it. In the second case
one log entry for the text is emitted. -/
theorem Apply_first_rule_gate (env : Env) (g : GeoIP) (first : lookupEntry)
    (rest : List lookupEntry) (p : Metric) (pre post pre2 post2 : List Metric)
    (log1 log2 : List LogEntry)
    (hg : g.Lookups = first :: rest)
    (hpre : Apply env g pre = some (pre2, log1))
    (hpost : Apply env g post = some (post2, log2)) :
    (p.GetField first.Field = none →
      Apply env g (pre ++ p :: post) = some (pre2 ++ p :: post2, log1 ++ log2)) ∧
    (∀ s, p.GetField first.Field = some (.str s) → env.ParseIP s = none →
      Apply env g (pre ++ p :: post)
        = some (pre2 ++ p :: post2, log1 ++ invalidIP s :: log2)) := by
  constructor
  · intro h
    have hp : applyPoint env first (first :: rest) p [] = some (p, []) := by
      simp [applyPoint, h]
    simpa using Apply_cons_some env g first rest p p [] pre post pre2 post2 log1 log2
      hg hp hpre hpost
  · intro s h hs
    have hp : applyPoint env first (first :: rest) p [] = some (p, [invalidIP s]) := by
      simp [applyPoint, h, hs]
    simpa using Apply_cons_some env g first rest p p [invalidIP s] pre post pre2 post2
      log1 log2 hg hp hpre hpost

theorem Apply_first_rule_gate_witness :
    Apply demoEnv ⟨"db", [countryRule "a" "x", countryRule "ip" "c"]⟩
        ([mkPoint [("a", .str "1.2.3.4")]] ++ mkPoint [("ip", .str "8.8.8.8")] ::
          [mkPoint [("a", .str "1.2.3.4"), ("ip", .str "8.8.8.8")]])
      = some ([mkPoint [("a", .str "1.2.3.4"), ("x", .str "AU")]] ++
          mkPoint [("ip", .str "8.8.8.8")] ::
          [mkPoint [("a", .str "1.2.3.4"), ("ip", .str "8.8.8.8"), ("x", .str "AU"),
            ("c", .str "US")]], [] ++ []) ∧
    Apply demoEnv ⟨"db", [countryRule "a" "x", countryRule "ip" "c"]⟩
        ([mkPoint [("a", .str "1.2.3.4")]] ++
          mkPoint [("a", .str "junk"), ("ip", .str "8.8.8.8")] ::
          [mkPoint [("a", .str "1.2.3.4"), ("ip", .str "8.8.8.8")]])
      = some ([mkPoint [("a", .str "1.2.3.4"), ("x", .str "AU")]] ++
          mkPoint [("a", .str "junk"), ("ip", .str "8.8.8.8")] ::
          [mkPoint [("a", .str "1.2.3.4"), ("ip", .str "8.8.8.8"), ("x", .str "AU"),
            ("c", .str "US")]], [] ++ invalidIP "junk" :: []) :=
  ⟨(Apply_first_rule_gate demoEnv ⟨"db", [countryRule "a" "x", countryRule "ip" "c"]⟩
      (countryRule "a" "x") [countryRule "ip" "c"] (mkPoint [("ip", .str "8.8.8.8")])
      [mkPoint [("a", .str "1.2.3.4")]]
      [mkPoint [("a", .str "1.2.3.4"), ("ip", .str "8.8.8.8")]]
      [mkPoint [("a", .str "1.2.3.4"), ("x", .str "AU")]]
      [mkPoint [("a", .str "1.2.3.4"), ("ip", .str "8.8.8.8"), ("x", .str "AU"),
        ("c", .str "US")]] [] [] rfl (by decide) (by decide)).1 (by decide),
   (Apply_first_rule_gate demoEnv ⟨"db", [countryRule "a" "x", countryRule "ip" "c"]⟩
      (countryRule "a" "x") [countryRule "ip" "c"]
      (mkPoint [("a", .str "junk"), ("ip", .str "8.8.8.8")])
      [mkPoint [("a", .str "1.2.3.4")]]
      [mkPoint [("a", .str "1.2.3.4"), ("ip", .str "8.8.8.8")]]
      [mkPoint [("a", .str "1.2.3.4"), ("x", .str "AU")]]
      [mkPoint [("a", .str "1.2.3.4"), ("ip", .str "8.8.8.8"), ("x", .str "AU"),
        ("c", .str "US")]] [] [] rfl (by decide) (by decide)).2 "junk" (by decide)
      (by decide)⟩

/-- Rules with an empty source field name that do not stand first are inert:
when the first rule of the list has a non-empty source field name (or the list is
empty), `Apply` gives the same result, points and log entries, as with the rule
list from which every rule with an empty source field name has been removed. -/
theorem Apply_filter_empty_source (env : Env) (g : GeoIP) (ms : List Metric)
    (h : ∀ l, g.Lookups.head? = some l → l.Field ≠ "") :
    Apply env g ms
      = Apply env ⟨g.DBPath, g.Lookups.filter (fun l => l.Field ≠ "")⟩ ms := by
  cases hg : g.Lookups with
  | nil => simp [Apply, hg]
  | cons first rest =>
    have hf : first.Field ≠ "" := h first (by simp [hg])
    have hfil : (first :: rest).filter (fun l => l.Field ≠ "")
        = first :: rest.filter (fun l => l.Field ≠ "") :=
      List.filter_cons_of_pos (by simp [hf])
    rw [Apply_cons_lookups env g first rest ms hg,
      Apply_cons_lookups env ⟨g.DBPath, (first :: rest).filter (fun l => l.Field ≠ "")⟩
        first (rest.filter (fun l => l.Field ≠ "")) ms hfil, ← hfil]
    exact applyPoints_congr env first first _ _ ms [] rfl
      (fun p _ lg => (applyLookups_filter env (first :: rest) p lg).symm)

theorem Apply_filter_empty_source_witness :
    (∀ l, (GeoIP.mk "db" [countryRule "ip" "c", countryRule "" "d"]).Lookups.head? = some l →
        l.Field ≠ "") ∧
    Apply demoEnv ⟨"db", [countryRule "ip" "c", countryRule "" "d"]⟩
        [mkPoint [("ip", .str "8.8.8.8"), ("", .str "1.2.3.4")]]
      = Apply demoEnv ⟨"db", [countryRule "ip" "c", countryRule "" "d"].filter
          (fun l => l.Field ≠ "")⟩ [mkPoint [("ip", .str "8.8.8.8"), ("", .str "1.2.3.4")]] :=
  ⟨by decide, Apply_filter_empty_source demoEnv _ _ (by decide)⟩

/-- C9 (the code departs from it). A rule with an empty source field name standing
first is not inert: line 55 reads the field named by `g.Lookups[0].Field` without
the check of line 67, the point has no field with the empty name, so it is
skipped, whereas with that rule removed the country is written. -/
theorem Apply_empty_source_first_not_inert :
    [countryRule "" "d", countryRule "ip" "c"].filter (fun l => l.Field ≠ "")
      = [countryRule "ip" "c"] ∧
    Apply demoEnv ⟨"db", [countryRule "" "d", countryRule "ip" "c"]⟩
        [mkPoint [("ip", .str "8.8.8.8")]]
      = some ([mkPoint [("ip", .str "8.8.8.8")]], []) ∧
    Apply demoEnv ⟨"db", [countryRule "ip" "c"]⟩ [mkPoint [("ip", .str "8.8.8.8")]]
      = some ([mkPoint [("ip", .str "8.8.8.8"), ("c", .str "US")]], []) := by
  decide

/-- C10. When `Apply` returns, every point of the result stands at the position
of the point it comes from, with the same name, tags and time; every field the
point had is still there; every field whose name is not a non-empty destination
name of a rule has the value it had; in particular the source field of a rule
whose name is not a destination name of any rule. -/
theorem Apply_frame (env : Env) (g : GeoIP) (ms ms2 : List Metric) (log : List LogEntry)
    (h : Apply env g ms = some (ms2, log)) :
    List.Forall₂ (fun p p2 =>
      p2.name = p.name ∧ p2.tags = p.tags ∧ p2.time = p.time ∧
      (∀ k, (p.GetField k).isSome → (p2.GetField k).isSome) ∧
      (∀ k, (∀ l ∈ g.Lookups, k ∉ dests l) → p2.GetField k = p.GetField k) ∧
      (∀ l ∈ g.Lookups, (∀ l2 ∈ g.Lookups, l.Field ∉ dests l2) →
        p2.GetField l.Field = p.GetField l.Field)) ms ms2 := by
  have key : List.Forall₂ (fun p p2 => ∃ ws, p2 = p.writeAll ws ∧
      ∀ k ∈ ws.map Prod.fst, ∃ l ∈ g.Lookups, k ∈ dests l) ms ms2 := by
    cases hg : g.Lookups with
    | nil =>
      rw [Apply_nil_lookups env g ms hg] at h
      simp only [Option.some.injEq, Prod.mk.injEq] at h
      rw [← h.1]
      exact List.forall₂_same.mpr (fun p _ => ⟨[], rfl, by simp⟩)
    | cons first rest =>
      rw [Apply_cons_lookups env g first rest ms hg] at h
      exact applyPoints_shape env first _ ms ms2 [] log h
  refine key.imp ?_
  rintro p p2 ⟨ws, rfl, hws⟩
  have hframe : ∀ k, (∀ l ∈ g.Lookups, k ∉ dests l) →
      (p.writeAll ws).GetField k = p.GetField k := by
    intro k hk
    apply GetField_writeAll
    intro hmem
    obtain ⟨l, hl, hkl⟩ := hws k hmem
    exact hk l hl hkl
  exact ⟨rfl, rfl, rfl, fun k hk => GetField_writeAll_isSome p ws k hk, hframe,
    fun l _ hl => hframe l.Field hl⟩

theorem Apply_frame_witness :
    Apply demoEnv ⟨"db", [⟨"ip", "cc", "city", "lat", "lon"⟩]⟩
        [mkPoint [("cc", .int 1), ("ip", .str "8.8.8.8")]]
      = some ([mkPoint [("cc", .str "US"), ("ip", .str "8.8.8.8"),
          ("city", .str "Mountain View"), ("lat", .float ⟨37⟩), ("lon", .float ⟨122⟩)]], []) ∧
    List.Forall₂ (fun p p2 =>
      p2.name = p.name ∧ p2.tags = p.tags ∧ p2.time = p.time ∧
      (∀ k, (p.GetField k).isSome → (p2.GetField k).isSome) ∧
      (∀ k, (∀ l ∈ (GeoIP.mk "db" [⟨"ip", "cc", "city", "lat", "lon"⟩]).Lookups,
        k ∉ dests l) → p2.GetField k = p.GetField k) ∧
      (∀ l ∈ (GeoIP.mk "db" [⟨"ip", "cc", "city", "lat", "lon"⟩]).Lookups,
        (∀ l2 ∈ (GeoIP.mk "db" [⟨"ip", "cc", "city", "lat", "lon"⟩]).Lookups,
          l.Field ∉ dests l2) → p2.GetField l.Field = p.GetField l.Field))
      [mkPoint [("cc", .int 1), ("ip", .str "8.8.8.8")]]
      [mkPoint [("cc", .str "US"), ("ip", .str "8.8.8.8"),
          ("city", .str "Mountain View"), ("lat", .float ⟨37⟩), ("lon", .float ⟨122⟩)]] :=
  ⟨by decide, Apply_frame demoEnv _ _ _ [] (by decide)⟩

/-- C1. With a single rule whose source field name is non-empty, a point whose
source field holds a string that parses as an IP address found in the database
with record `r` comes out of `Apply` with the same name, tags and time and with
its fields updated, in this order, by the country ISO code under `DestCountry`,
the English city name under `DestCity`, the latitude under `DestLat` and the
longitude under `DestLon`: each only when the destination name is non-empty, the
city only when `r` has an English name. Every other field reads as before, so no
other field is added. No log entry is emitted for the point. The other points of
the batch are processed as they are without it. -/
theorem Apply_writes_destinations (env : Env) (g : GeoIP) (l : lookupEntry) (p : Metric)
    (s : String) (ip : IP) (r : CityResult) (pre post pre2 post2 : List Metric)
    (log1 log2 : List LogEntry)
    (hg : g.Lookups = [l]) (hne : l.Field ≠ "")
    (hsrc : p.GetField l.Field = some (.str s))
    (hparse : env.ParseIP s = some ip) (hfound : env.Lookup ip = .ok r)
    (hpre : Apply env g pre = some (pre2, log1))
    (hpost : Apply env g post = some (post2, log2)) :
    ∃ p2, Apply env g (pre ++ p :: post) = some (pre2 ++ p2 :: post2, log1 ++ log2) ∧
      p2.name = p.name ∧ p2.tags = p.tags ∧ p2.time = p.time ∧
      p2.fields = applyWrites (writes l r) p.fields ∧
      ∀ k, p2.GetField k =
        if l.DestLon ≠ "" ∧ k = l.DestLon then some (.float r.Location.Longitude)
        else if l.DestLat ≠ "" ∧ k = l.DestLat then some (.float r.Location.Latitude)
        else if l.DestCity ≠ "" ∧ k = l.DestCity ∧ (r.City.Names.lookup "en").isSome then
          (r.City.Names.lookup "en").map Value.str
        else if l.DestCountry ≠ "" ∧ k = l.DestCountry then some (.str r.Country.ISOCode)
        else p.GetField k := by
  have hp : applyPoint env l [l] p [] = some (writeDest l r p, []) := by
    simp [applyPoint, applyLookups, applyLookup, hne, hsrc, hparse, hfound]
  refine ⟨writeDest l r p, ?_, ?_, ?_, ?_, ?_, ?_⟩
  · simpa using Apply_cons_some env g l [] p _ [] pre post pre2 post2 log1 log2
      hg hp hpre hpost
  · rw [writeDest_eq]; rfl
  · rw [writeDest_eq]; rfl
  · rw [writeDest_eq]; rfl
  · rw [writeDest_eq]; rfl
  · intro k
    rw [writeDest_eq]
    show getField (applyWrites (writes l r) p.fields) k = _
    unfold writes
    rw [getField_applyWrites_opt, getField_applyWrites_opt]
    have hrest : getField (applyWrites
        ((if l.DestCountry ≠ "" then
            [(l.DestCountry, Value.str r.Country.ISOCode)] else []) ++
          (if l.DestCity ≠ "" then
            (match r.City.Names.lookup "en" with
             | some cityName => [(l.DestCity, Value.str cityName)]
             | none => []) else [])) p.fields) k
        = if l.DestCity ≠ "" ∧ k = l.DestCity ∧ (r.City.Names.lookup "en").isSome then
            (r.City.Names.lookup "en").map Value.str
          else if l.DestCountry ≠ "" ∧ k = l.DestCountry then some (.str r.Country.ISOCode)
          else p.GetField k := by
      have hc := getField_applyWrites_opt (l.DestCountry ≠ "") [] l.DestCountry
        (Value.str r.Country.ISOCode) p.fields k
      simp only [List.nil_append, applyWrites] at hc
      cases h5 : r.City.Names.lookup "en" with
      | none =>
        simp only [ite_self, List.append_nil, Option.isSome_none, Bool.false_eq_true,
          and_false, if_false]
        exact hc
      | some c =>
        simp only [Option.isSome_some, and_true, Option.map_some']
        rw [getField_applyWrites_opt, hc]
        rfl
    rw [hrest]

theorem Apply_writes_destinations_witness :
    ∃ p2, Apply demoEnv ⟨"db", [specRule]⟩ ([] ++ specPoint :: [])
        = some ([] ++ p2 :: [], [] ++ []) ∧
      p2.fields = [("source_ip", .str "8.8.8.8"), ("source_country", .str "US"),
        ("source_city", .str "Mountain View")] := by
  obtain ⟨p2, h1, _, _, _, h5, _⟩ :=
    Apply_writes_destinations demoEnv ⟨"db", [specRule]⟩ specRule specPoint "8.8.8.8"
      [8, 8, 8, 8] recUS [] [] [] [] [] [] rfl (by decide) (by decide) (by decide)
      rfl (by decide) (by decide)
  exact ⟨p2, h1, by rw [h5]; decide⟩

/-- C7. A rule whose source field holds a string that parses as an IP address for
which the database lookup returns an error writes nothing and logs nothing: the
body of the loop over the rules leaves the point and the log as they are; in a
rule list, where no earlier rule writes its source field, the rule acts as the
rule with the same source field and no destination; and with that rule alone
`Apply` returns the batch unchanged with an empty log. -/
theorem Apply_lookup_error_silent (env : Env) (l : lookupEntry) :
    (∀ p log s ip err, p.GetField l.Field = some (.str s) → env.ParseIP s = some ip →
      env.Lookup ip = .error err → applyLookup env l p log = some (p, log)) ∧
    (∀ (g : GeoIP) pre post ms, g.Lookups = pre ++ l :: post →
      (∀ l2 ∈ pre, l.Field ∉ dests l2) →
      (∀ p ∈ ms, ∃ s ip err, p.GetField l.Field = some (.str s) ∧
        env.ParseIP s = some ip ∧ env.Lookup ip = .error err) →
      Apply env g ms = Apply env ⟨g.DBPath, pre ++ quiet l :: post⟩ ms) ∧
    (∀ (g : GeoIP) ms, g.Lookups = [l] →
      (∀ p ∈ ms, ∃ s ip err, p.GetField l.Field = some (.str s) ∧
        env.ParseIP s = some ip ∧ env.Lookup ip = .error err) →
      Apply env g ms = some (ms, [])) := by
  refine ⟨fun p log s ip err h1 h2 h3 => applyLookup_lookup_error env l p log s ip err h1 h2 h3,
    ?_, ?_⟩
  · intro g pre post ms hg hpre hms
    have hrep : ∀ p ∈ ms, ∀ lg, applyLookups env (pre ++ l :: post) p lg
        = applyLookups env (pre ++ quiet l :: post) p lg := by
      intro p hp lg
      obtain ⟨s, ip, err, h1, h2, h3⟩ := hms p hp
      apply applyLookups_replace env pre post l (quiet l) p lg hpre
      intro q lg2 hq
      rw [applyLookup_lookup_error env l q lg2 s ip err (hq.trans h1) h2 h3,
        applyLookup_lookup_error env (quiet l) q lg2 s ip err (hq.trans h1) h2 h3]
    cases pre with
    | nil =>
      rw [Apply_cons_lookups env g l post ms hg,
        Apply_cons_lookups env ⟨g.DBPath, [] ++ quiet l :: post⟩ (quiet l) post ms rfl]
      exact applyPoints_congr env l (quiet l) _ _ ms [] rfl hrep
    | cons first rest =>
      rw [Apply_cons_lookups env g first (rest ++ l :: post) ms hg,
        Apply_cons_lookups env ⟨g.DBPath, first :: rest ++ quiet l :: post⟩ first
          (rest ++ quiet l :: post) ms rfl]
      exact applyPoints_congr env first first _ _ ms [] rfl hrep
  · intro g ms hg hms
    rw [Apply_cons_lookups env g l [] ms hg]
    apply applyPoints_id
    intro p hp lg
    obtain ⟨s, ip, err, h1, h2, h3⟩ := hms p hp
    simp [applyPoint, applyLookups, h1, h2,
      applyLookup_lookup_error env l p lg s ip err h1 h2 h3]

theorem Apply_lookup_error_silent_witness :
    applyLookup demoEnv ⟨"ip", "cc", "city", "lat", "lon"⟩
        (mkPoint [("ip", .str "10.0.0.1")]) []
      = some (mkPoint [("ip", .str "10.0.0.1")], []) ∧
    Apply demoEnv ⟨"db", [countryRule "src" "c"] ++ ⟨"ip", "cc", "city", "lat", "lon"⟩ :: []⟩
        [mkPoint [("src", .str "8.8.8.8"), ("ip", .str "10.0.0.1")]]
      = Apply demoEnv
          ⟨"db", [countryRule "src" "c"] ++ quiet ⟨"ip", "cc", "city", "lat", "lon"⟩ :: []⟩
          [mkPoint [("src", .str "8.8.8.8"), ("ip", .str "10.0.0.1")]] ∧
    Apply demoEnv ⟨"db", [⟨"ip", "cc", "city", "lat", "lon"⟩]⟩
        [mkPoint [("ip", .str "10.0.0.1")]]
      = some ([mkPoint [("ip", .str "10.0.0.1")]], []) :=
  ⟨(Apply_lookup_error_silent demoEnv ⟨"ip", "cc", "city", "lat", "lon"⟩).1
      (mkPoint [("ip", .str "10.0.0.1")]) [] "10.0.0.1" [10, 0, 0, 1] "not found"
      (by decide) (by decide) rfl,
    (Apply_lookup_error_silent demoEnv ⟨"ip", "cc", "city", "lat", "lon"⟩).2.1
      ⟨"db", [countryRule "src" "c"] ++ ⟨"ip", "cc", "city", "lat", "lon"⟩ :: []⟩
      [countryRule "src" "c"] [] [mkPoint [("src", .str "8.8.8.8"), ("ip", .str "10.0.0.1")]]
      rfl (by decide)
      (fun p hp => ⟨"10.0.0.1", [10, 0, 0, 1], "not found",
        by rw [List.mem_singleton.mp hp]; decide, by decide, rfl⟩),
    (Apply_lookup_error_silent demoEnv ⟨"ip", "cc", "city", "lat", "lon"⟩).2.2
      ⟨"db", [⟨"ip", "cc", "city", "lat", "lon"⟩]⟩ [mkPoint [("ip", .str "10.0.0.1")]] rfl
      (fun p hp => ⟨"10.0.0.1", [10, 0, 0, 1], "not found",
        by rw [List.mem_singleton.mp hp]; decide, by decide, rfl⟩)⟩

/-- Removing from the list a rule that is not the first, whose source field name
no earlier rule has as a destination, and whose source field is absent from every
point of the batch or holds text that does not parse, does not change the points
that `Apply` returns. -/
theorem Apply_remove_skipped_rule (env : Env) (g : GeoIP) (first bad : lookupEntry)
    (pre post : List lookupEntry) (ms : List Metric)
    (hg : g.Lookups = first :: pre ++ bad :: post)
    (hpre : ∀ l ∈ first :: pre, bad.Field ∉ dests l)
    (hbad : ∀ p ∈ ms, p.GetField bad.Field = none ∨
      ∃ s, p.GetField bad.Field = some (.str s) ∧ env.ParseIP s = none) :
    (Apply env g ms).map Prod.fst
      = (Apply env ⟨g.DBPath, first :: pre ++ post⟩ ms).map Prod.fst := by
  rw [Apply_cons_lookups env g first (pre ++ bad :: post) ms hg,
    Apply_cons_lookups env ⟨g.DBPath, first :: pre ++ post⟩ first (pre ++ post) ms rfl]
  apply applyPoints_fst_congr
  intro p hp lg lg2
  exact applyLookups_remove env (first :: pre) post bad p lg lg2 hpre (hbad p hp)

/-- What the writes of a rule leave under each name, whatever the fields were:
the last of the writes to that name. -/
theorem getField_writes (l : lookupEntry) (r : CityResult) (fs : Fields) (k : String) :
    getField (applyWrites (writes l r) fs) k =
      if l.DestLon ≠ "" ∧ k = l.DestLon then some (.float r.Location.Longitude)
      else if l.DestLat ≠ "" ∧ k = l.DestLat then some (.float r.Location.Latitude)
      else if l.DestCity ≠ "" ∧ k = l.DestCity ∧ (r.City.Names.lookup "en").isSome then
        (r.City.Names.lookup "en").map Value.str
      else if l.DestCountry ≠ "" ∧ k = l.DestCountry then some (.str r.Country.ISOCode)
      else getField fs k := by
  unfold writes
  rw [getField_applyWrites_opt, getField_applyWrites_opt]
  have hrest : getField (applyWrites
      ((if l.DestCountry ≠ "" then
          [(l.DestCountry, Value.str r.Country.ISOCode)] else []) ++
        (if l.DestCity ≠ "" then
          (match r.City.Names.lookup "en" with
           | some cityName => [(l.DestCity, Value.str cityName)]
           | none => []) else [])) fs) k
      = if l.DestCity ≠ "" ∧ k = l.DestCity ∧ (r.City.Names.lookup "en").isSome then
          (r.City.Names.lookup "en").map Value.str
        else if l.DestCountry ≠ "" ∧ k = l.DestCountry then some (.str r.Country.ISOCode)
        else getField fs k := by
    have hc := getField_applyWrites_opt (l.DestCountry ≠ "") [] l.DestCountry
      (Value.str r.Country.ISOCode) fs k
    simp only [List.nil_append, applyWrites] at hc
    cases h5 : r.City.Names.lookup "en" with
    | none =>
      simp only [ite_self, List.append_nil, Option.isSome_none, Bool.false_eq_true,
        and_false, if_false]
      exact hc
    | some c =>
      simp only [Option.isSome_some, and_true, Option.map_some']
      rw [getField_applyWrites_opt, hc]
  rw [hrest]

theorem ruleWrites_found (env : Env) (l : lookupEntry) (p : Metric) (s : String) (ip : IP)
    (r : CityResult) (hne : l.Field ≠ "") (hsrc : p.GetField l.Field = some (.str s))
    (hparse : env.ParseIP s = some ip) (hfound : env.Lookup ip = .ok r) :
    ruleWrites env l p = some (writes l r, []) := by
  simp [ruleWrites, hne, hsrc, hparse, hfound]

/-- Rules whose source field is absent or holds a string do not panic. -/
theorem planWrites_some (env : Env) (ls : List lookupEntry) (p : Metric)
    (h : ∀ l ∈ ls, p.GetField l.Field = none ∨ ∃ s, p.GetField l.Field = some (.str s)) :
    ∃ ws e, planWrites env ls p = some (ws, e) := by
  induction ls with
  | nil => exact ⟨[], [], rfl⟩
  | cons l rest ih =>
    obtain ⟨ws, e, hws⟩ := ih (fun x hx => h x (by simp [hx]))
    have hl : ∃ w e1, ruleWrites env l p = some (w, e1) := by
      unfold ruleWrites
      split_ifs
      · exact ⟨[], [], rfl⟩
      · rcases h l (by simp) with h0 | ⟨s, h1⟩
        · exact ⟨[], [], by simp [h0]⟩
        · cases h2 : env.ParseIP s with
          | none => exact ⟨[], [invalidIP s], by simp [h1, h2]⟩
          | some ip =>
            cases h3 : env.Lookup ip with
            | error err => exact ⟨[], [], by simp [h1, h2, h3]⟩
            | ok r => exact ⟨writes l r, [], by simp [h1, h2, h3]⟩
    obtain ⟨w, e1, hw⟩ := hl
    exact ⟨w ++ ws, e1 ++ e, by simp [planWrites, hw, hws]⟩

/-- C4, as the code has it. Take a rule list in which no non-empty destination
name is a source field name, and a point on which the source field of the first
rule is present and parses and the source field of every rule is absent or holds
a string. Then `Apply` returns, and a rule whose source field is absent or holds
text that does not parse causes only that rule to be skipped. First, every rule
of the list, at whatever position, whose non-empty source field is present,
parses and is found in the database writes its non-empty destination fields:
each name it writes, unless a later rule has it as a destination, holds in the
result the last value the rule wrote under it (longitude, latitude, English city
name, country). Second, the point returned is the one returned with a skipped
rule, not the first, removed from the list. -/
theorem Apply_skips_only_that_rule (env : Env) (g : GeoIP) (first : lookupEntry)
    (rest : List lookupEntry) (p : Metric)
    (hg : g.Lookups = first :: rest)
    (hD : ∀ l ∈ g.Lookups, ∀ k ∈ dests l, ∀ l2 ∈ g.Lookups, l2.Field ≠ k)
    (hstr : ∀ l ∈ g.Lookups, p.GetField l.Field = none ∨
      ∃ s, p.GetField l.Field = some (.str s))
    (hgate : ∃ s ip, p.GetField first.Field = some (.str s) ∧ env.ParseIP s = some ip) :
    ∃ p2 log, Apply env g [p] = some ([p2], log) ∧
      (∀ pre r post s ip rec k, g.Lookups = pre ++ r :: post → r.Field ≠ "" →
        p.GetField r.Field = some (.str s) → env.ParseIP s = some ip →
        env.Lookup ip = .ok rec →
        ((r.DestCountry ≠ "" ∧ k = r.DestCountry) ∨
          (r.DestCity ≠ "" ∧ k = r.DestCity ∧ (rec.City.Names.lookup "en").isSome) ∨
          (r.DestLat ≠ "" ∧ k = r.DestLat) ∨ (r.DestLon ≠ "" ∧ k = r.DestLon)) →
        (∀ l2 ∈ post, k ∉ dests l2) →
        p2.GetField k =
          if r.DestLon ≠ "" ∧ k = r.DestLon then some (.float rec.Location.Longitude)
          else if r.DestLat ≠ "" ∧ k = r.DestLat then some (.float rec.Location.Latitude)
          else if r.DestCity ≠ "" ∧ k = r.DestCity ∧ (rec.City.Names.lookup "en").isSome then
            (rec.City.Names.lookup "en").map Value.str
          else some (.str rec.Country.ISOCode)) ∧
      (∀ pre bad post, rest = pre ++ bad :: post →
        (p.GetField bad.Field = none ∨
          ∃ s, p.GetField bad.Field = some (.str s) ∧ env.ParseIP s = none) →
        (Apply env ⟨g.DBPath, first :: pre ++ post⟩ [p]).map Prod.fst = some [p2]) := by
  have hs : ∀ l ∈ g.Lookups, l.Field ∈ g.Lookups.map (fun x => x.Field) :=
    fun l hl => List.mem_map.mpr ⟨l, hl, rfl⟩
  have hd : ∀ l ∈ g.Lookups, ∀ k ∈ dests l, k ∉ g.Lookups.map (fun x => x.Field) := by
    intro l hl k hk hm
    obtain ⟨l2, hl2, hk2⟩ := List.mem_map.mp hm
    exact hD l hl k hk l2 hl2 hk2
  obtain ⟨sg, ipg, hg1, hg2⟩ := hgate
  obtain ⟨W, e, hW⟩ := planWrites_some env g.Lookups p hstr
  have hfm : first ∈ g.Lookups := by rw [hg]; simp
  have hrun : Apply env g [p] = some ([p.writeAll W], e) := by
    rw [Apply_single env g first rest p hg, ← hg,
      applyPoint_plan env (g.Lookups.map (fun x => x.Field)) first g.Lookups p p []
        (hs first hfm) hs hd (fun _ _ => rfl)]
    simp [pointPlan, hg1, hg2, hW]
  refine ⟨p.writeAll W, e, hrun, ?_, ?_⟩
  · intro pre r post s ip rec k hsplit hne hsrc hparse hfound hk hpost
    obtain ⟨w1, e1, hw1⟩ := planWrites_some env pre p
      (fun l hl => hstr l (by rw [hsplit]; simp [hl]))
    obtain ⟨w2, e2, hw2⟩ := planWrites_some env post p
      (fun l hl => hstr l (by rw [hsplit]; simp [hl]))
    have hr : planWrites env (r :: post) p = some (writes r rec ++ w2, [] ++ e2) := by
      rw [planWrites, ruleWrites_found env r p s ip rec hne hsrc hparse hfound, hw2]
    have hall := planWrites_append env pre (r :: post) p _ _ _ _ hw1 hr
    rw [← hsplit, hW] at hall
    simp only [Option.some.injEq, Prod.mk.injEq] at hall
    have hk2 : k ∉ w2.map Prod.fst := by
      intro hmem
      obtain ⟨l2, hl2, hkl⟩ := planWrites_keys env post p w2 e2 hw2 k hmem
      exact hpost l2 hl2 hkl
    show getField (applyWrites W p.fields) k = _
    rw [hall.1, applyWrites_append, applyWrites_append, getField_applyWrites _ _ _ hk2,
      getField_writes]
    by_cases h4 : r.DestLon ≠ "" ∧ k = r.DestLon
    · rw [if_pos h4, if_pos h4]
    · rw [if_neg h4, if_neg h4]
      by_cases h3 : r.DestLat ≠ "" ∧ k = r.DestLat
      · rw [if_pos h3, if_pos h3]
      · rw [if_neg h3, if_neg h3]
        by_cases h2 : r.DestCity ≠ "" ∧ k = r.DestCity ∧ (rec.City.Names.lookup "en").isSome
        · rw [if_pos h2, if_pos h2]
        · rw [if_neg h2, if_neg h2]
          have h1 : r.DestCountry ≠ "" ∧ k = r.DestCountry := by
            rcases hk with h | h | h | h
            · exact h
            · exact absurd h h2
            · exact absurd h h3
            · exact absurd h h4
          rw [if_pos h1]
  · intro pre bad post hsplit hbad
    have hg2 : g.Lookups = first :: pre ++ bad :: post := by rw [hg, hsplit]; rfl
    have hbm : bad ∈ g.Lookups := by rw [hg2]; simp
    have hpre : ∀ l ∈ first :: pre, bad.Field ∉ dests l := by
      intro l hl hmem
      have hlm : l ∈ g.Lookups := by
        rw [hg2]
        simp only [List.cons_append, List.mem_cons, List.mem_append] at hl ⊢
        tauto
      exact hD l hlm bad.Field hmem bad hbm rfl
    have hrem := Apply_remove_skipped_rule env g first bad pre post [p] hg2 hpre
      (fun q hq => by rw [List.mem_singleton.mp hq]; exact hbad)
    rw [hrun] at hrem
    exact hrem.symm

theorem Apply_skips_only_that_rule_witness :
    ∃ p2 log,
      Apply demoEnv ⟨"db", [countryRule "ip" "c", countryRule "a" "x",
          ⟨"ip2", "cc", "city", "lat", "lon"⟩]⟩
          [mkPoint [("ip", .str "1.2.3.4"), ("a", .str "bad"), ("ip2", .str "8.8.8.8")]]
        = some ([p2], log) ∧
      p2.GetField "c" = some (.str "AU") ∧
      p2.GetField "city" = some (.str "Mountain View") ∧
      p2.GetField "lon" = some (.float ⟨122⟩) ∧
      (Apply demoEnv ⟨"db", countryRule "ip" "c" :: [] ++ [⟨"ip2", "cc", "city", "lat", "lon"⟩]⟩
          [mkPoint [("ip", .str "1.2.3.4"), ("a", .str "bad"),
            ("ip2", .str "8.8.8.8")]]).map Prod.fst = some [p2] := by
  obtain ⟨p2, log, h1, hA, hB⟩ := Apply_skips_only_that_rule demoEnv
    ⟨"db", [countryRule "ip" "c", countryRule "a" "x", ⟨"ip2", "cc", "city", "lat", "lon"⟩]⟩
    (countryRule "ip" "c") [countryRule "a" "x", ⟨"ip2", "cc", "city", "lat", "lon"⟩]
    (mkPoint [("ip", .str "1.2.3.4"), ("a", .str "bad"), ("ip2", .str "8.8.8.8")])
    rfl (by decide)
    (by
      intro l hl
      simp only [List.mem_cons, List.mem_singleton, List.not_mem_nil, or_false] at hl
      rcases hl with rfl | rfl | rfl
      · exact Or.inr ⟨"1.2.3.4", by decide⟩
      · exact Or.inr ⟨"bad", by decide⟩
      · exact Or.inr ⟨"8.8.8.8", by decide⟩)
    ⟨"1.2.3.4", [1, 2, 3, 4], by decide, by decide⟩
  refine ⟨p2, log, h1, ?_, ?_, ?_, ?_⟩
  · exact (hA [] (countryRule "ip" "c")
      [countryRule "a" "x", ⟨"ip2", "cc", "city", "lat", "lon"⟩] "1.2.3.4" [1, 2, 3, 4]
      recAU "c" rfl (by decide) (by decide) (by decide) rfl (by decide) (by decide)).trans
      (by decide)
  · exact (hA [countryRule "ip" "c", countryRule "a" "x"]
      ⟨"ip2", "cc", "city", "lat", "lon"⟩ [] "8.8.8.8" [8, 8, 8, 8]
      recUS "city" rfl (by decide) (by decide) (by decide) rfl (by decide) (by decide)).trans
      (by decide)
  · exact (hA [countryRule "ip" "c", countryRule "a" "x"]
      ⟨"ip2", "cc", "city", "lat", "lon"⟩ [] "8.8.8.8" [8, 8, 8, 8]
      recUS "lon" rfl (by decide) (by decide) (by decide) rfl (by decide) (by decide)).trans
      (by decide)
  · exact hB [] (countryRule "a" "x") [⟨"ip2", "cc", "city", "lat", "lon"⟩] rfl
      (Or.inr ⟨"bad", by decide, by decide⟩)

/-- C4 as stated fails. The source field of the first rule is absent from the
point; the second rule has its source field present, parsing and found in the
database, and a non-empty destination, yet nothing is written. -/
theorem Apply_first_rule_absent_blocks_later_rule :
    (mkPoint [("ip", .str "8.8.8.8")]).GetField (countryRule "a" "x").Field = none ∧
    (mkPoint [("ip", .str "8.8.8.8")]).GetField (countryRule "ip" "c").Field
      = some (.str "8.8.8.8") ∧
    demoEnv.ParseIP "8.8.8.8" = some [8, 8, 8, 8] ∧
    demoEnv.Lookup [8, 8, 8, 8] = .ok recUS ∧
    (countryRule "ip" "c").DestCountry ≠ "" ∧
    Apply demoEnv ⟨"db", [countryRule "a" "x", countryRule "ip" "c"]⟩
        [mkPoint [("ip", .str "8.8.8.8")]]
      = some ([mkPoint [("ip", .str "8.8.8.8")]], []) :=
  ⟨by decide, by decide, by decide, rfl, by decide, by decide⟩

/-- C8, as the code has it. When no non-empty destination name of a rule is
the source field name of a rule, `Apply` run on a batch it has returned returns
that batch again, with the same fields on every point, and emits the same log
entries. -/
theorem Apply_idempotent (env : Env) (g : GeoIP) (ms ms2 : List Metric) (log : List LogEntry)
    (hD : ∀ l ∈ g.Lookups, ∀ k ∈ dests l, ∀ l2 ∈ g.Lookups, l2.Field ≠ k)
    (h : Apply env g ms = some (ms2, log)) :
    Apply env g ms2 = some (ms2, log) := by
  cases hg : g.Lookups with
  | nil =>
    rw [Apply_nil_lookups env g ms hg] at h
    simp only [Option.some.injEq, Prod.mk.injEq] at h
    rw [← h.1, ← h.2]
    exact Apply_nil_lookups env g ms hg
  | cons first rest =>
    rw [Apply_cons_lookups env g first rest _ hg] at h ⊢
    exact applyPoints_idem env first _ ms ms2 log (by simp) (hg ▸ hD) h

theorem Apply_idempotent_witness :
    Apply demoEnv ⟨"db", [⟨"ip", "cc", "city", "cc", "lon"⟩, countryRule "ip2" "cc"]⟩
        [mkPoint [("ip", .str "8.8.8.8"), ("ip2", .str "zz")],
          mkPoint [("ip", .str "1.2.3.4"), ("ip2", .str "8.8.8.8")]]
      = some ([mkPoint [("ip", .str "8.8.8.8"), ("ip2", .str "zz"), ("cc", .float ⟨37⟩),
            ("city", .str "Mountain View"), ("lon", .float ⟨122⟩)],
          mkPoint [("ip", .str "1.2.3.4"), ("ip2", .str "8.8.8.8"), ("cc", .str "US"),
            ("lon", .float ⟨151⟩)]], [invalidIP "zz"]) ∧
    Apply demoEnv ⟨"db", [⟨"ip", "cc", "city", "cc", "lon"⟩, countryRule "ip2" "cc"]⟩
        [mkPoint [("ip", .str "8.8.8.8"), ("ip2", .str "zz"), ("cc", .float ⟨37⟩),
            ("city", .str "Mountain View"), ("lon", .float ⟨122⟩)],
          mkPoint [("ip", .str "1.2.3.4"), ("ip2", .str "8.8.8.8"), ("cc", .str "US"),
            ("lon", .float ⟨151⟩)]]
      = some ([mkPoint [("ip", .str "8.8.8.8"), ("ip2", .str "zz"), ("cc", .float ⟨37⟩),
            ("city", .str "Mountain View"), ("lon", .float ⟨122⟩)],
          mkPoint [("ip", .str "1.2.3.4"), ("ip2", .str "8.8.8.8"), ("cc", .str "US"),
            ("lon", .float ⟨151⟩)]], [invalidIP "zz"]) :=
  ⟨by decide, Apply_idempotent demoEnv _
    [mkPoint [("ip", .str "8.8.8.8"), ("ip2", .str "zz")],
      mkPoint [("ip", .str "1.2.3.4"), ("ip2", .str "8.8.8.8")]] _ _ (by decide) (by decide)⟩

/-- C8 as stated fails. The third rule overwrites the source field of the second:
the first run leaves `out = "AU"`, written by the second rule; in the second run
the second rule is skipped, its source now holding `"US"`, and `out = "US"`. -/
theorem Apply_twice_differs :
    Apply demoEnv
        ⟨"db", [countryRule "ip" "out", countryRule "ip2" "out", countryRule "ip" "ip2"]⟩
        [mkPoint [("ip", .str "8.8.8.8"), ("ip2", .str "1.2.3.4")]]
      = some ([mkPoint [("ip", .str "8.8.8.8"), ("ip2", .str "US"), ("out", .str "AU")]], []) ∧
    Apply demoEnv
        ⟨"db", [countryRule "ip" "out", countryRule "ip2" "out", countryRule "ip" "ip2"]⟩
        [mkPoint [("ip", .str "8.8.8.8"), ("ip2", .str "US"), ("out", .str "AU")]]
      = some ([mkPoint [("ip", .str "8.8.8.8"), ("ip2", .str "US"), ("out", .str "US")]],
          [invalidIP "US"]) := by
  decide

/-- C6, as the code has it. Take a rule list in which no non-empty destination
name is a source field name, and a point on which one rule, with a non-empty
source field name, finds a string that does not parse as an IP address, every
other rule finds its source field absent or holding a string that parses, and the
source field of the first rule is present. Then `Apply` emits exactly one log
entry, carrying the invalid string, and that rule writes nothing: when it is the
first rule the point is unchanged, otherwise the point is the one `Apply` returns
with that rule removed from the list. -/
theorem Apply_invalid_logs_once (env : Env) (g : GeoIP) (bad : lookupEntry)
    (pre post : List lookupEntry) (p : Metric) (s : String)
    (hg : g.Lookups = pre ++ bad :: post)
    (hD : ∀ l ∈ g.Lookups, ∀ k ∈ dests l, ∀ l2 ∈ g.Lookups, l2.Field ≠ k)
    (hne : bad.Field ≠ "")
    (hsrc : p.GetField bad.Field = some (.str s)) (hparse : env.ParseIP s = none)
    (hothers : ∀ l ∈ pre ++ post, p.GetField l.Field = none ∨
      ∃ s2 ip, p.GetField l.Field = some (.str s2) ∧ env.ParseIP s2 = some ip)
    (hfirst : ∀ l, pre.head? = some l → p.GetField l.Field ≠ none) :
    ∃ p2, Apply env g [p] = some ([p2], [invalidIP s]) ∧
      (pre = [] → p2 = p) ∧
      (pre ≠ [] → Apply env ⟨g.DBPath, pre ++ post⟩ [p] = some ([p2], [])) := by
  cases pre with
  | nil =>
    refine ⟨p, ?_, fun _ => rfl, fun h => absurd rfl h⟩
    rw [Apply_single env g bad post p hg]
    simp [applyPoint, hsrc, hparse]
  | cons first rest =>
    have hmem : ∀ l ∈ first :: rest ++ post, l ∈ g.Lookups := by
      intro l hl
      rw [hg]
      simp only [List.cons_append, List.mem_cons, List.mem_append] at hl ⊢
      tauto
    have hs : ∀ l ∈ g.Lookups, l.Field ∈ g.Lookups.map (fun x => x.Field) :=
      fun l hl => List.mem_map.mpr ⟨l, hl, rfl⟩
    have hd : ∀ l ∈ g.Lookups, ∀ k ∈ dests l, k ∉ g.Lookups.map (fun x => x.Field) := by
      intro l hl k hk hm
      obtain ⟨l2, hl2, hk2⟩ := List.mem_map.mp hm
      exact hD l hl k hk l2 hl2 hk2
    obtain ⟨w1, hw1⟩ := planWrites_silent env (first :: rest) p
      (fun l hl => hothers l (by simp only [List.mem_append]; exact Or.inl hl))
    obtain ⟨w2, hw2⟩ := planWrites_silent env post p
      (fun l hl => hothers l (by simp only [List.mem_append]; exact Or.inr hl))
    have hbad : planWrites env (bad :: post) p = some ([] ++ w2, [invalidIP s] ++ []) := by
      rw [planWrites, ruleWrites_invalid env bad p s hne hsrc hparse, hw2]
    have hplan := planWrites_append env (first :: rest) (bad :: post) p _ _ _ _ hw1 hbad
    have hplan2 := planWrites_append env (first :: rest) post p _ _ _ _ hw1 hw2
    have hgate : ∃ s2 ip, p.GetField first.Field = some (.str s2) ∧
        env.ParseIP s2 = some ip := by
      rcases hothers first (by simp) with h0 | h1
      · exact absurd h0 (hfirst first rfl)
      · exact h1
    obtain ⟨s2, ip, hg1, hg2⟩ := hgate
    have hfm : first ∈ g.Lookups := hmem first (by simp)
    refine ⟨p.writeAll (w1 ++ w2), ?_, fun h => absurd h (by simp), fun _ => ?_⟩
    · rw [Apply_single env g first (rest ++ bad :: post) p hg,
        applyPoint_plan env (g.Lookups.map (fun x => x.Field)) first
          (first :: (rest ++ bad :: post)) p p [] (hs first hfm)
          (fun l hl => hs l (by rw [hg]; exact hl)) (fun l hl => hd l (by rw [hg]; exact hl))
          (fun _ _ => rfl)]
      simp only [pointPlan, hg1, hg2]
      rw [show first :: (rest ++ bad :: post) = (first :: rest) ++ bad :: post from rfl, hplan]
      simp
    · rw [Apply_single env ⟨g.DBPath, first :: rest ++ post⟩ first (rest ++ post) p rfl,
        applyPoint_plan env (g.Lookups.map (fun x => x.Field)) first
          (first :: (rest ++ post)) p p [] (hs first hfm)
          (fun l hl => hs l (hmem l hl)) (fun l hl => hd l (hmem l hl))
          (fun _ _ => rfl)]
      simp only [pointPlan, hg1, hg2]
      rw [show first :: (rest ++ post) = (first :: rest) ++ post from rfl, hplan2]
      simp

theorem Apply_invalid_logs_once_witness :
    ∃ p2, Apply demoEnv ⟨"db", [countryRule "ip" "c"] ++ countryRule "b" "y" ::
          [countryRule "z" "w"]⟩ [mkPoint [("ip", .str "8.8.8.8"), ("b", .str "not-an-ip")]]
        = some ([p2], [invalidIP "not-an-ip"]) ∧
      Apply demoEnv ⟨"db", [countryRule "ip" "c"] ++ [countryRule "z" "w"]⟩
          [mkPoint [("ip", .str "8.8.8.8"), ("b", .str "not-an-ip")]]
        = some ([p2], []) ∧
      p2 = mkPoint [("ip", .str "8.8.8.8"), ("b", .str "not-an-ip"), ("c", .str "US")] := by
  obtain ⟨p2, h1, _, h3⟩ := Apply_invalid_logs_once demoEnv
    ⟨"db", [countryRule "ip" "c"] ++ countryRule "b" "y" :: [countryRule "z" "w"]⟩
    (countryRule "b" "y") [countryRule "ip" "c"] [countryRule "z" "w"]
    (mkPoint [("ip", .str "8.8.8.8"), ("b", .str "not-an-ip")]) "not-an-ip"
    rfl (by decide) (by decide) (by decide) (by decide)
    (by
      intro l hl
      simp only [List.cons_append, List.nil_append, List.mem_cons, List.mem_singleton,
        List.not_mem_nil, or_false] at hl
      rcases hl with rfl | rfl
      · exact Or.inr ⟨"8.8.8.8", [8, 8, 8, 8], by decide, by decide⟩
      · exact Or.inl (by decide))
    (by
      intro l hl
      simp only [List.head?_cons, Option.some.injEq] at hl
      subst hl
      decide)
  refine ⟨p2, h1, h3 (by simp), ?_⟩
  have h4 : Apply demoEnv ⟨"db", [countryRule "ip" "c"] ++ [countryRule "z" "w"]⟩
      [mkPoint [("ip", .str "8.8.8.8"), ("b", .str "not-an-ip")]]
      = some ([mkPoint [("ip", .str "8.8.8.8"), ("b", .str "not-an-ip"),
          ("c", .str "US")]], []) := by decide
  rw [h3 (by simp)] at h4
  simpa using h4

/-- C6 as stated fails. The point holds a malformed address in the source field of
the second rule only, no destination name is a source name, but the source field
of the first rule is absent, so the point is skipped and no log entry is emitted. -/
theorem Apply_invalid_not_logged_behind_gate :
    (mkPoint [("b", .str "not-an-ip")]).GetField (countryRule "a" "x").Field = none ∧
    (mkPoint [("b", .str "not-an-ip")]).GetField (countryRule "b" "y").Field
      = some (.str "not-an-ip") ∧
    demoEnv.ParseIP "not-an-ip" = none ∧
    Apply demoEnv ⟨"db", [countryRule "a" "x", countryRule "b" "y"]⟩
        [mkPoint [("b", .str "not-an-ip")]]
      = some ([mkPoint [("b", .str "not-an-ip")]], []) := by
  decide

end geoip
